import Mathlib

/-!
# rs_irgen_sharp-a486jb: payload builder, AEHA pulse framing, resampling and byte packing

A shallow embedding of `rs_irgen_sharp-a486jb.c`.

* C `int` values (the results of `atoi`) are `Int`; every value that occurs stays far inside
  the 32-bit range, so no wrap-around is modelled for them.
* The union `SIGNAL` (13 bytes `c[13]` overlaid with a bit-field struct) is one little-endian
  number: byte `i` is `bits / 2^(8*i) % 256`, and a bit-field is a window `(offset, width)` of
  that number.  This is the layout the program itself assumes ("expects running on little
  endian machines"): bit-fields are allocated from the least significant bit upwards in
  declaration order.
* Storing an `int` in an unsigned bit-field of width `w` keeps the value modulo `2^w`.
* The arrays `pulse_length`, `out` and `outbyte` are lists; reading `a[i]` is `a.getD i 0` and
  the assignment `a[i] = v` is `a.set i v`.  The loops of `encode_aeha` run a number of times
  that is known when they start, so they are total functions without fuel.
-/

namespace IRGen

/-! ## Constants (lines 14-27) -/

def T_ON : Nat := 488
def T_OFF : Nat := 464
def T_TRAIL : Nat := 8000

def MAX_ENCDATA_LENGTH : Nat := 1920
def MAX_ENCBYTE_LENGTH : Nat := 240

def DATA_LENGTH : Nat := 13

def UNSET : Int := -1
def TRUE : Int := 1
def FALSE : Int := 0

/-! ## The `SIGNAL` union (lines 57-86) -/

/-- The 13 bytes of storage shared by `c[DATA_LENGTH]` and the bit-field struct `s`,
read as one little-endian number. -/
structure SIGNAL where
  bits : Nat
deriving DecidableEq

/-- The bit-field members of `SIGNAL.s`, in declaration order (after `maker_code[2]`). -/
inductive Field where
  | maker_code_parity
  | system_code
  | product_code
  | temp
  | dummy1_00010000
  | cmd
  | mode
  | dummy2_00
  | set_volume
  | volume
  | dummy3_0
  | timer_hour
  | dummy4_0
  | timer_1hoff
  | timer_mode
  | direction
  | dummy5_1000000000001
  | fullpower
  | timer_30min
  | eco
  | dummy6_1111000000
  | dummy6_0001
  | checksum
deriving DecidableEq

/-- Declared width of each bit-field, in bits. -/
def Field.width : Field → Nat
  | .maker_code_parity => 4
  | .system_code => 4
  | .product_code => 8
  | .temp => 4
  | .dummy1_00010000 => 8
  | .cmd => 4
  | .mode => 2
  | .dummy2_00 => 2
  | .set_volume => 1
  | .volume => 2
  | .dummy3_0 => 1
  | .timer_hour => 4
  | .dummy4_0 => 1
  | .timer_1hoff => 1
  | .timer_mode => 2
  | .direction => 3
  | .dummy5_1000000000001 => 13
  | .fullpower => 1
  | .timer_30min => 4
  | .eco => 1
  | .dummy6_1111000000 => 10
  | .dummy6_0001 => 4
  | .checksum => 4

/-- All bit-fields in declaration order. -/
def Field.all : List Field :=
  [.maker_code_parity, .system_code, .product_code, .temp, .dummy1_00010000, .cmd, .mode,
   .dummy2_00, .set_volume, .volume, .dummy3_0, .timer_hour, .dummy4_0, .timer_1hoff,
   .timer_mode, .direction, .dummy5_1000000000001, .fullpower, .timer_30min, .eco,
   .dummy6_1111000000, .dummy6_0001, .checksum]

/-- Bit offset of a field from the start of the union: the two `maker_code` bytes take bits
0..15 and each bit-field follows the previous one, least significant bit first. -/
def Field.offset : Field → Nat
  | .maker_code_parity => 16
  | .system_code => 20
  | .product_code => 24
  | .temp => 32
  | .dummy1_00010000 => 36
  | .cmd => 44
  | .mode => 48
  | .dummy2_00 => 50
  | .set_volume => 52
  | .volume => 53
  | .dummy3_0 => 55
  | .timer_hour => 56
  | .dummy4_0 => 60
  | .timer_1hoff => 61
  | .timer_mode => 62
  | .direction => 64
  | .dummy5_1000000000001 => 67
  | .fullpower => 80
  | .timer_30min => 81
  | .eco => 85
  | .dummy6_1111000000 => 86
  | .dummy6_0001 => 96
  | .checksum => 100

/-- Read the `w`-bit window at bit offset `off`. -/
def SIGNAL.getBits (s : SIGNAL) (off w : Nat) : Nat :=
  s.bits / 2 ^ off % 2 ^ w

/-- Overwrite the `w`-bit window at bit offset `off` with `v` converted to an unsigned
`w`-bit value (the value modulo `2^w`); all other bits are kept. -/
def SIGNAL.setBits (s : SIGNAL) (off w : Nat) (v : Int) : SIGNAL :=
  ⟨s.bits - s.getBits off w * 2 ^ off + (v % ((2 ^ w : Nat) : Int)).toNat * 2 ^ off⟩

/-- Read `s.s.<field>`. -/
def SIGNAL.get (s : SIGNAL) (f : Field) : Nat :=
  s.getBits f.offset f.width

/-- Assignment `s.s.<field> = v`. -/
def SIGNAL.set (s : SIGNAL) (f : Field) (v : Int) : SIGNAL :=
  s.setBits f.offset f.width v

/-- Read `s.c[i]`. -/
def SIGNAL.c (s : SIGNAL) (i : Nat) : Nat :=
  s.getBits (8 * i) 8

/-- Assignment `s.c[i] = v` (also `s.s.maker_code[i] = v` for `i < 2`). -/
def SIGNAL.setC (s : SIGNAL) (i : Nat) (v : Int) : SIGNAL :=
  s.setBits (8 * i) 8 v

/-- The array `s.c` as a list of `DATA_LENGTH` bytes. -/
def SIGNAL.bytes (s : SIGNAL) : List Nat :=
  (List.range DATA_LENGTH).map s.c

/-! ## The `NIBBLES` union (lines 46-53) -/

/-- Value of `n.nibbles.lower` after `n.c = c`. -/
def NIBBLES.lower (c : Nat) : Nat := c % 16

/-- Value of `n.nibbles.upper` after `n.c = c`. -/
def NIBBLES.upper (c : Nat) : Nat := c / 16 % 16

/-! ## `main`: payload construction (lines 179, 221-275) -/

/-- Line 179: `for(i = 0; i < DATA_LENGTH; i++) { s.c[i] = 0; }`.  Every byte of the payload
is overwritten, so the storage the loop starts from does not matter; it is taken as `0`. -/
def clearSignal : SIGNAL :=
  (List.range DATA_LENGTH).foldl (fun s i => s.setC i 0) ⟨0⟩

/-- Lines 224-259: all field assignments, in source order, with the checksum left at zero. -/
def setFields (s : SIGNAL) (cmdPower cmdTemp cmdMode cmdVolume cmdIsFullPower : Int) : SIGNAL :=
  let s := s.set .dummy1_00010000 0x10
  let s := s.set .dummy2_00 0x0
  let s := s.set .dummy3_0 0x0
  let s := s.set .dummy4_0 0x0
  let s := s.set .dummy5_1000000000001 0x1001
  let s := s.set .dummy6_1111000000 0x3c0
  let s := s.set .dummy6_0001 0x1
  let s := s.setC 0 0xaa
  let s := s.setC 1 0x5a
  let s := s.set .maker_code_parity 0xf
  let s := s.set .system_code 0xc
  let s := s.set .product_code 0x10
  let s := s.set .temp (cmdTemp - 17)
  let s :=
    if cmdIsFullPower = UNSET then
      s.set .cmd (if cmdPower = 1 then 1 else 2)
    else
      s.set .cmd (if cmdIsFullPower = 1 then 6 else 7)
  let s := s.set .mode cmdMode
  let s := s.set .set_volume (if cmdVolume = 0 then 0 else 1)
  let s := s.set .volume (if cmdVolume = 1 then 1 else cmdVolume)
  let s := s.set .timer_hour 0
  let s := s.set .timer_1hoff 0
  let s := s.set .timer_mode 0
  let s := s.set .direction 0
  let s := s.set .fullpower (if cmdIsFullPower ≠ UNSET then 1 else 0)
  let s := s.set .timer_30min 0
  let s := s.set .eco 0
  let s := s.set .checksum 0
  s

/-- One iteration of the checksum loop (lines 265-274) for index `i`. -/
def checksumStep (s : SIGNAL) (i : Nat) : SIGNAL :=
  let n := s.c i
  let s := if i > 2 then s.set .checksum ((s.get .checksum ^^^ NIBBLES.lower n : Nat) : Int) else s
  let s := if i < 12 then s.set .checksum ((s.get .checksum ^^^ NIBBLES.upper n : Nat) : Int) else s
  s

/-- Lines 263-275: `for(i = 2; i < DATA_LENGTH; i++)`. -/
def computeChecksum (s : SIGNAL) : SIGNAL :=
  (List.range' 2 (DATA_LENGTH - 2)).foldl checksumStep s

/-- The payload builder: lines 179 and 221-275 of `main`, for already parsed arguments. -/
def buildSignal (cmdPower cmdTemp cmdMode cmdVolume cmdIsFullPower : Int) : SIGNAL :=
  computeChecksum (setFields clearSignal cmdPower cmdTemp cmdMode cmdVolume cmdIsFullPower)

/-- The 13 payload bytes `s.c[0..12]` handed to `encode_aeha`. -/
def buildPayload (cmdPower cmdTemp cmdMode cmdVolume cmdIsFullPower : Int) : List Nat :=
  (buildSignal cmdPower cmdTemp cmdMode cmdVolume cmdIsFullPower).bytes

/-! ## `main`: option parsing and validation (lines 172-219) -/

/-- One turn of the `getopt(argc, argv, "p:t:m:v:f:")` loop: the option letter found together
with `atoi(optarg)`, or `unknown` when `getopt` reports anything else (an unrecognised option
or a missing argument), which takes the `default:` branch. -/
inductive Opt where
  | p (n : Int)
  | t (n : Int)
  | m (n : Int)
  | v (n : Int)
  | f (n : Int)
  | unknown
deriving DecidableEq

/-- The five `cmd*` variables of `main`. -/
structure Args where
  cmdPower : Int
  cmdTemp : Int
  cmdMode : Int
  cmdVolume : Int
  cmdIsFullPower : Int
deriving DecidableEq

/-- Lines 172-173: the initial values of the `cmd*` variables. -/
def Args.init : Args :=
  { cmdPower := UNSET, cmdTemp := UNSET, cmdMode := UNSET, cmdVolume := UNSET,
    cmdIsFullPower := FALSE }

/-- Lines 182-205: the `while`/`switch` over the options; `none` is
`usage(); exit(EXIT_FAILURE)` of the `default:` branch. -/
def parseOpts : List Opt → Args → Option Args
  | [], a => some a
  | .p n :: rest, a => parseOpts rest { a with cmdPower := n }
  | .t n :: rest, a => parseOpts rest { a with cmdTemp := n }
  | .m n :: rest, a => parseOpts rest { a with cmdMode := n }
  | .v n :: rest, a => parseOpts rest { a with cmdVolume := n }
  | .f n :: rest, a => parseOpts rest { a with cmdIsFullPower := n }
  | .unknown :: _, _ => none

/-- Lines 210-214: the condition under which `main` prints the usage text and exits with
`EXIT_FAILURE`. -/
def invalidArgs (cmdPower cmdTemp cmdMode cmdVolume cmdIsFullPower : Int) : Bool :=
  (cmdPower != 0 && cmdPower != 1) ||
  (decide (cmdTemp < 18) || decide (cmdTemp > 32)) ||
  (decide (cmdMode < 0) || decide (cmdMode > 3)) ||
  (decide (cmdVolume < 0) || decide (cmdVolume > 3)) ||
  (cmdIsFullPower != UNSET && cmdIsFullPower != 0 && cmdIsFullPower != 1)

/-- Lines 210-275 of `main` for given values of the `cmd*` variables: `none` is the
usage/`EXIT_FAILURE` exit, `some` carries the payload bytes `s.c` passed to `encode_aeha`. -/
def checkAndBuild (a : Args) : Option (List Nat) :=
  if invalidArgs a.cmdPower a.cmdTemp a.cmdMode a.cmdVolume a.cmdIsFullPower then none
  else some (buildPayload a.cmdPower a.cmdTemp a.cmdMode a.cmdVolume a.cmdIsFullPower)

/-- Lines 172-275 of `main`: from the parsed command line to the payload, or `none` when the
program exits with `EXIT_FAILURE`. -/
def mainPayload (opts : List Opt) : Option (List Nat) :=
  match parseOpts opts Args.init with
  | none => none
  | some a => checkAndBuild a

/-! ## `encode_aeha`: pulse framing (lines 97-124) -/

/-- One entry of the local table `pulse_length`: the members `on` and `off` (mark and space
duration in microseconds). -/
structure Pulse where
  onLen : Nat
  offLen : Nat
deriving DecidableEq

/-- Line 114: `(data[i] >> j) & 0x1`. -/
def dataBit (d j : Nat) : Nat := (d >>> j) &&& 1

/-- Lines 115-117: the entry stored at `pulse_length[cnt]` for bit `j` of the byte `d`. -/
def bitPulse (d j : Nat) : Pulse :=
  { onLen := T_ON, offLen := if dataBit d j = 1 then 3 * T_OFF else T_OFF }

/-- The eight entries stored for one data byte by the inner loop (lines 112-118). -/
def bytePulses (d : Nat) : List Pulse := (List.range 8).map (bitPulse d)

/-- Lines 103-124: the entries `pulse_length[0 .. cnt-1]` after the leader, data and trailer
parts have been stored.  Storing at index `cnt` followed by `cnt++` is appending to the list;
`data` with its `length` is the list of bytes.  (The C table holds `MAX_ENCDATA_LENGTH`
entries, which is enough for up to 239 bytes.) -/
def pulseTable (data : List Nat) : List Pulse :=
  let pl : List Pulse := [{ onLen := 8 * T_ON, offLen := 4 * T_OFF }]
  let pl := data.foldl
    (fun pl d => (List.range 8).foldl (fun pl j => pl ++ [bitPulse d j]) pl) pl
  pl ++ [{ onLen := T_ON, offLen := T_TRAIL }]

/-! ## `encode_aeha`: resampling to 100 microsecond samples (lines 126-151) -/

/-- State of the resampling loop: the array `out`, the variables `pos` and `endt`, and two
bookkeeping components that the program does not have: `log`, the indices `j` of the
assignments `out[j] = ...` in the order they are executed, and `skipped`, the number of times
the guard `if(j >= MAX_ENCDATA_LENGTH) { continue; }` was taken. -/
structure Resample where
  out : List Nat
  pos : Nat
  endt : Nat
  log : List Nat
  skipped : Nat
deriving DecidableEq

/-- The loop `for(j = pos; j < endpos; j++)` of lines 137-142 (with `v = 1`) and 145-150
(with `v = 0`): `n` is the number of iterations still to run and `j` the loop variable. -/
def fillLoop (v : Nat) : Nat → Nat → Resample → Resample
  | 0, _, st => st
  | n + 1, j, st =>
    if j ≥ MAX_ENCDATA_LENGTH then
      fillLoop v n (j + 1) { st with skipped := st.skipped + 1 }
    else
      fillLoop v n (j + 1)
        { st with out := st.out.set j v, pos := j + 1, log := st.log ++ [j] }

/-- One turn of the loop over the pulses (lines 129-150) for the entry `p`. -/
def resampleStep (st : Resample) (p : Pulse) : Resample :=
  let st := { st with endt := st.endt + p.onLen }
  let endpos := st.endt / 100
  let st := fillLoop 1 (endpos - st.pos) st.pos st
  let st := { st with endt := st.endt + p.offLen }
  let endpos := st.endt / 100
  fillLoop 0 (endpos - st.pos) st.pos st

/-- Lines 94-95 and 127-151: the resampling loop run over a pulse table, starting with
`pos = 0`, `endt = 0` on the array `out`. -/
def resample (ps : List Pulse) (out : List Nat) : Resample :=
  ps.foldl resampleStep { out := out, pos := 0, endt := 0, log := [], skipped := 0 }

/-- The function `encode_aeha(data, length, out)`: the final state of its loops. -/
def encodeState (data : List Nat) (out : List Nat) : Resample :=
  resample (pulseTable data) out

/-- The function `encode_aeha(data, length, out)`: the contents of `out` on return. -/
def encode_aeha (data : List Nat) (out : List Nat) : List Nat :=
  (encodeState data out).out

/-! ## `main`: packing the samples into bytes (lines 303-329) -/

/-- Line 303: `for(i = 0; i < MAX_ENCDATA_LENGTH; i++) { out[i] = 0; }`. -/
def clearOut : List Nat := List.replicate MAX_ENCDATA_LENGTH 0

/-- Lines 318-327: `b.b.b0 = out[i*8+0]; ... b.b.b7 = out[i*8+7]; outbyte[i] = b.c`.  Each
member of `CHARBITS` is one bit wide, so it keeps the sample modulo 2, and `b0` is the least
significant bit of `b.c`. -/
def packByte (out : List Nat) (i : Nat) : Nat :=
  out.getD (i * 8 + 0) 0 % 2 + 2 * (out.getD (i * 8 + 1) 0 % 2)
    + 4 * (out.getD (i * 8 + 2) 0 % 2) + 8 * (out.getD (i * 8 + 3) 0 % 2)
    + 16 * (out.getD (i * 8 + 4) 0 % 2) + 32 * (out.getD (i * 8 + 5) 0 % 2)
    + 64 * (out.getD (i * 8 + 6) 0 % 2) + 128 * (out.getD (i * 8 + 7) 0 % 2)

/-- Lines 316-329: the array `outbyte`, whose entries are printed in order as two hexadecimal
digits each. -/
def outBytes (out : List Nat) : List Nat :=
  (List.range MAX_ENCBYTE_LENGTH).map (packByte out)

/-- Lines 303-329 of `main` for the payload `s.c`: the bytes printed. -/
def encodePayload (data : List Nat) : List Nat :=
  outBytes (encode_aeha data clearOut)

/-- The whole of `main`: `none` when the program exits with `EXIT_FAILURE`, otherwise the 240
bytes it prints. -/
def mainOutput (opts : List Opt) : Option (List Nat) :=
  (mainPayload opts).map encodePayload

/-! ## Statements of the specification used for comparison -/

/-- The parameter ranges of the data model: power 0/1, temperature 18..32, mode 0..3,
volume 0..3, full power unspecified (`UNSET`), 0 or 1. -/
def ValidParams (p t m v f : Int) : Prop :=
  (p = 0 ∨ p = 1) ∧ (18 ≤ t ∧ t ≤ 32) ∧ (0 ≤ m ∧ m ≤ 3) ∧ (0 ≤ v ∧ v ≤ 3) ∧
  (f = UNSET ∨ f = 0 ∨ f = 1)

instance (p t m v f : Int) : Decidable (ValidParams p t m v f) := by
  unfold ValidParams; infer_instance

/-- Nibble number `k` of a byte list: nibble `2*i` is the low and nibble `2*i+1` the high
nibble of byte `i`. -/
def nibbleAt (bs : List Nat) (k : Nat) : Nat :=
  if k % 2 = 0 then bs.getD (k / 2) 0 % 16 else bs.getD (k / 2) 0 / 16 % 16

/-- XOR-fold of the contiguous nibble range `first .. last` (both inclusive). -/
def xorNibbleRange (bs : List Nat) (first last : Nat) : Nat :=
  (List.range' first (last + 1 - first)).foldl (fun acc k => acc ^^^ nibbleAt bs k) 0

/-- The payload with its checksum field (high nibble of byte 12) zeroed. -/
def zeroChecksum (bs : List Nat) : List Nat :=
  bs.set 12 (bs.getD 12 0 % 16)

/-- Self-check as worded in the testable properties: XOR of every nibble of bytes 2..12,
leaving out only the low nibble of byte 2 and the high nibble of byte 12. -/
def recomputeChecksum (bs : List Nat) : Nat :=
  let nibbles := (List.range' 2 11).flatMap fun i =>
    (if i = 2 then [] else [bs.getD i 0 % 16]) ++
    (if i = 12 then [] else [bs.getD i 0 / 16 % 16])
  nibbles.foldl (fun acc n => acc ^^^ n) 0

/-- The checksum stored in a payload: the high nibble of byte 12. -/
def storedChecksum (bs : List Nat) : Nat := bs.getD 12 0 / 16

/-- Mark plus space duration of a pulse, in microseconds. -/
def Pulse.duration (p : Pulse) : Nat := p.onLen + p.offLen

/-- Cumulative duration of a list of pulses, in microseconds. -/
def totalDuration (ps : List Pulse) : Nat := (ps.map Pulse.duration).sum

/-- The time `S_i` at which pulse `i` starts: the sum of the mark and space durations of all
pulses before it. -/
def startTime (ps : List Pulse) (i : Nat) : Nat := totalDuration (ps.take i)

/-- Sample `j` of the unbounded floor-quantised timeline lies in a mark: there is a pulse `i`
with `floor(S_i / 100) ≤ j < floor((S_i + on_i) / 100)`. -/
def InMark (ps : List Pulse) (j : Nat) : Prop :=
  ∃ i p, ps[i]? = some p ∧ startTime ps i / 100 ≤ j ∧ j < (startTime ps i + p.onLen) / 100

/-- A pulse that encodes a data bit: mark 488, space 464 (bit 0) or 1392 (bit 1). -/
def IsDataPulse (x : Pulse) : Prop :=
  x.onLen = 488 ∧ (x.offLen = 464 ∨ x.offLen = 1392)

/-- Unpacking bytes into samples, least significant bit first. -/
def unpackBytes (bs : List Nat) : List Nat :=
  bs.flatMap fun b => (List.range 8).map fun k => b / 2 ^ k % 2

/-! ## Closed forms of the builder's result -/

/-- Command code as a function of the power and full-power values. -/
def cmdCode (p f : Int) : Nat :=
  if f = UNSET then (if p = 1 then 1 else 2) else (if f = 1 then 6 else 7)

/-- Volume-set flag as a function of the volume value. -/
def volumeFlag (v : Int) : Nat := if v = 0 then 0 else 1

/-- Full-power flag as a function of the full-power value. -/
def fullpowerFlag (f : Int) : Nat := if f = UNSET then 0 else 1

/-- Closed form of the checksum: the constant fields contribute 2. -/
def closedChecksum (p t m v f : Int) : Nat :=
  2 ^^^ (t - 17).toNat ^^^ cmdCode p f ^^^ m.toNat ^^^ (volumeFlag v + 2 * v.toNat)
    ^^^ fullpowerFlag f

/-- The 104 bits that hold the given values in the seven variable fields and the program's
constants in all other fields, every value at the bit offset of its field. -/
def layoutBits (T CMD M SV V FP CHK : Nat) : Nat :=
  0xaa + 0x5a * 2 ^ 8 + 0xf * 2 ^ 16 + 0xc * 2 ^ 20 + 0x10 * 2 ^ 24 + T * 2 ^ 32
    + 0x10 * 2 ^ 36 + CMD * 2 ^ 44 + M * 2 ^ 48 + SV * 2 ^ 52 + V * 2 ^ 53
    + 0x1001 * 2 ^ 67 + FP * 2 ^ 80 + 0x3c0 * 2 ^ 86 + 0x1 * 2 ^ 96 + CHK * 2 ^ 100

/-- Closed form of the bits built by `buildSignal` for valid parameters. -/
def closedBits (p t m v f : Int) : Nat :=
  layoutBits (t - 17).toNat (cmdCode p f) m.toNat (volumeFlag v) v.toNat (fullpowerFlag f)
    (closedChecksum p t m v f)

/-- Closed form of the 13 payload bytes built for valid parameters. -/
def closedPayload (p t m v f : Int) : List Nat :=
  [0xAA, 0x5A, 0xCF, 0x10, (t - 17).toNat, 0x01 + 16 * cmdCode p f,
   m.toNat + 16 * volumeFlag v + 32 * v.toNat, 0x00, 0x08, 0x80, fullpowerFlag f, 0xF0,
   0x01 + 16 * closedChecksum p t m v f]

/-- What a signal holds when its variable fields have the values `T`, `CMD`, `M`, `SV`, `V`,
`FP`, `CHK` and its other fields the program's constants: every bit-field and every byte. -/
structure FieldValues (s : SIGNAL) (T CMD M SV V FP CHK : Nat) : Prop where
  maker_code_parity : s.get .maker_code_parity = 0xf
  system_code : s.get .system_code = 0xc
  product_code : s.get .product_code = 0x10
  temp : s.get .temp = T
  dummy1 : s.get .dummy1_00010000 = 0x10
  cmd : s.get .cmd = CMD
  mode : s.get .mode = M
  dummy2 : s.get .dummy2_00 = 0
  set_volume : s.get .set_volume = SV
  volume : s.get .volume = V
  dummy3 : s.get .dummy3_0 = 0
  timer_hour : s.get .timer_hour = 0
  dummy4 : s.get .dummy4_0 = 0
  timer_1hoff : s.get .timer_1hoff = 0
  timer_mode : s.get .timer_mode = 0
  direction : s.get .direction = 0
  dummy5 : s.get .dummy5_1000000000001 = 0x1001
  fullpower : s.get .fullpower = FP
  timer_30min : s.get .timer_30min = 0
  eco : s.get .eco = 0
  dummy6 : s.get .dummy6_1111000000 = 0x3c0
  dummy6_0001 : s.get .dummy6_0001 = 0x1
  checksum : s.get .checksum = CHK
  c0 : s.c 0 = 0xAA
  c1 : s.c 1 = 0x5A
  c2 : s.c 2 = 0xCF
  c3 : s.c 3 = 0x10
  c4 : s.c 4 = T
  c5 : s.c 5 = 0x01 + 16 * CMD
  c6 : s.c 6 = M + 16 * SV + 32 * V
  c7 : s.c 7 = 0x00
  c8 : s.c 8 = 0x08
  c9 : s.c 9 = 0x80
  c10 : s.c 10 = FP
  c11 : s.c 11 = 0xF0
  c12 : s.c 12 = 0x01 + 16 * CHK

/-! ## Layout of the bit-fields -/

/-- The offsets of `Field.offset` are the running sums of the declared widths, starting after
the two `maker_code` bytes, and no bit-field crosses a 32-bit storage unit, so the compiler
inserts no padding between them; the last field ends at bit 104 = 8 * `DATA_LENGTH`. -/
theorem field_layout :
    (∀ k, k < Field.all.length →
      (Field.all.getD k .checksum).offset
        = 16 + ((Field.all.take k).map Field.width).sum) ∧
    (∀ fld ∈ Field.all, fld.offset / 32 = (fld.offset + fld.width - 1) / 32) ∧
    Field.checksum.offset + Field.checksum.width = 8 * DATA_LENGTH := by
  decide

/-- Reading the fields and bytes of `layoutBits` gives back the values put in. -/
theorem layout_values (T CMD M SV V FP CHK : Nat) (hT : T < 16) (hC : CMD < 16) (hM : M < 4)
    (hSV : SV < 2) (hV : V < 4) (hFP : FP < 2) (hCHK : CHK < 16) :
    FieldValues (SIGNAL.mk (layoutBits T CMD M SV V FP CHK)) T CMD M SV V FP CHK := by
  constructor <;>
    simp only [SIGNAL.c, SIGNAL.get, SIGNAL.getBits, layoutBits, Field.offset, Field.width] <;>
    omega

/-- The byte array of a signal, written out. -/
theorem bytes_eq (s : SIGNAL) :
    s.bytes = [s.c 0, s.c 1, s.c 2, s.c 3, s.c 4, s.c 5, s.c 6, s.c 7, s.c 8, s.c 9, s.c 10,
      s.c 11, s.c 12] := rfl

/-! ## Enumeration of the valid parameter sets -/

/-- A property that holds on the 2 * 15 * 4 * 4 * 3 grid of parameter values holds for every
valid parameter set. -/
theorem forall_valid {P : Int → Int → Int → Int → Int → Prop}
    (h : ∀ a < 2, ∀ b < 15, ∀ c < 4, ∀ d < 4, ∀ e < 3,
      P ((a : Nat) : Int) (((b : Nat) : Int) + 18) ((c : Nat) : Int) ((d : Nat) : Int)
        (((e : Nat) : Int) - 1))
    (p t m v f : Int) (hv : ValidParams p t m v f) : P p t m v f := by
  obtain ⟨hp, ⟨ht1, ht2⟩, ⟨hm1, hm2⟩, ⟨hv1, hv2⟩, hf⟩ := hv
  have hf2 : -1 ≤ f ∧ f ≤ 1 := by
    unfold UNSET at hf
    omega
  have key := h p.toNat (by omega) (t - 18).toNat (by omega) m.toNat (by omega)
    v.toNat (by omega) (f + 1).toNat (by omega)
  have e1 : ((p.toNat : Nat) : Int) = p := by omega
  have e2 : (((t - 18).toNat : Nat) : Int) + 18 = t := by omega
  have e3 : ((m.toNat : Nat) : Int) = m := by omega
  have e4 : ((v.toNat : Nat) : Int) = v := by omega
  have e5 : (((f + 1).toNat : Nat) : Int) - 1 = f := by omega
  rwa [e1, e2, e3, e4, e5] at key

set_option maxRecDepth 100000 in
set_option synthInstance.maxSize 100000 in
set_option synthInstance.maxHeartbeats 0 in
set_option maxHeartbeats 0 in
/-- For valid parameters `buildSignal` produces exactly the bits of `closedBits`. -/
theorem buildSignal_closed (p t m v f : Int) (hv : ValidParams p t m v f) :
    buildSignal p t m v f = ⟨closedBits p t m v f⟩ := by
  revert p t m v f
  apply forall_valid
  decide!

set_option maxRecDepth 100000 in
set_option synthInstance.maxSize 100000 in
set_option synthInstance.maxHeartbeats 0 in
set_option maxHeartbeats 0 in
/-- For valid parameters the closed-form field values fit the widths of their fields. -/
theorem closed_bounds (p t m v f : Int) (hv : ValidParams p t m v f) :
    (t - 17).toNat < 16 ∧ cmdCode p f < 16 ∧ m.toNat < 4 ∧ volumeFlag v < 2 ∧ v.toNat < 4 ∧
    fullpowerFlag f < 2 ∧ closedChecksum p t m v f < 16 := by
  revert p t m v f
  apply forall_valid
  decide!

/-- For valid parameters every field and byte of the built signal has its closed-form value. -/
theorem buildSignal_values (p t m v f : Int) (hv : ValidParams p t m v f) :
    FieldValues (buildSignal p t m v f) (t - 17).toNat (cmdCode p f) m.toNat (volumeFlag v)
      v.toNat (fullpowerFlag f) (closedChecksum p t m v f) := by
  obtain ⟨h1, h2, h3, h4, h5, h6, h7⟩ := closed_bounds p t m v f hv
  rw [buildSignal_closed p t m v f hv]
  exact layout_values _ _ _ _ _ _ _ h1 h2 h3 h4 h5 h6 h7

/-- For valid parameters `buildPayload` produces exactly the bytes of `closedPayload`. -/
theorem buildPayload_closed (p t m v f : Int) (hv : ValidParams p t m v f) :
    buildPayload p t m v f = closedPayload p t m v f := by
  have h := buildSignal_values p t m v f hv
  rw [buildPayload, bytes_eq, h.c0, h.c1, h.c2, h.c3, h.c4, h.c5, h.c6, h.c7, h.c8, h.c9,
    h.c10, h.c11, h.c12]
  rfl

/-! ## Checksum ranges on a 13-byte list -/

/-- The self-check of the testable properties, written out for a 13-byte list. -/
theorem recomputeChecksum_zeroChecksum (b0 b1 b2 b3 b4 b5 b6 b7 b8 b9 b10 b11 b12 : Nat) :
    recomputeChecksum (zeroChecksum [b0, b1, b2, b3, b4, b5, b6, b7, b8, b9, b10, b11, b12])
      = 0 ^^^ b2 / 16 % 16 ^^^ b3 % 16 ^^^ b3 / 16 % 16 ^^^ b4 % 16 ^^^ b4 / 16 % 16
        ^^^ b5 % 16 ^^^ b5 / 16 % 16 ^^^ b6 % 16 ^^^ b6 / 16 % 16 ^^^ b7 % 16 ^^^ b7 / 16 % 16
        ^^^ b8 % 16 ^^^ b8 / 16 % 16 ^^^ b9 % 16 ^^^ b9 / 16 % 16 ^^^ b10 % 16
        ^^^ b10 / 16 % 16 ^^^ b11 % 16 ^^^ b11 / 16 % 16 ^^^ b12 % 16 % 16 := rfl

/-- The nibble range 5..23 (high nibble of byte 2 through high nibble of byte 11), written out
for a 13-byte list. -/
theorem xorNibbleRange_5_23 (b0 b1 b2 b3 b4 b5 b6 b7 b8 b9 b10 b11 b12 : Nat) :
    xorNibbleRange [b0, b1, b2, b3, b4, b5, b6, b7, b8, b9, b10, b11, b12] 5 23
      = 0 ^^^ b2 / 16 % 16 ^^^ b3 % 16 ^^^ b3 / 16 % 16 ^^^ b4 % 16 ^^^ b4 / 16 % 16
        ^^^ b5 % 16 ^^^ b5 / 16 % 16 ^^^ b6 % 16 ^^^ b6 / 16 % 16 ^^^ b7 % 16 ^^^ b7 / 16 % 16
        ^^^ b8 % 16 ^^^ b8 / 16 % 16 ^^^ b9 % 16 ^^^ b9 / 16 % 16 ^^^ b10 % 16
        ^^^ b10 / 16 % 16 ^^^ b11 % 16 ^^^ b11 / 16 % 16 := rfl

/-- The nibble range 5..24 (high nibble of byte 2 through low nibble of byte 12), written out
for a 13-byte list. -/
theorem xorNibbleRange_5_24 (b0 b1 b2 b3 b4 b5 b6 b7 b8 b9 b10 b11 b12 : Nat) :
    xorNibbleRange [b0, b1, b2, b3, b4, b5, b6, b7, b8, b9, b10, b11, b12] 5 24
      = xorNibbleRange [b0, b1, b2, b3, b4, b5, b6, b7, b8, b9, b10, b11, b12] 5 23
        ^^^ b12 % 16 := rfl

/-- The stored checksum of a 13-byte list is the high nibble of its last byte. -/
theorem storedChecksum_eq (b0 b1 b2 b3 b4 b5 b6 b7 b8 b9 b10 b11 b12 : Nat) :
    storedChecksum [b0, b1, b2, b3, b4, b5, b6, b7, b8, b9, b10, b11, b12] = b12 / 16 := rfl

set_option maxRecDepth 100000 in
set_option synthInstance.maxSize 100000 in
set_option synthInstance.maxHeartbeats 0 in
set_option maxHeartbeats 0 in
/-- On the closed-form payload the stored checksum, the self-check of the testable properties
and the nibble ranges 5..24 and 5..23 are related as follows. -/
theorem closedPayload_checksum (p t m v f : Int) (hv : ValidParams p t m v f) :
    storedChecksum (closedPayload p t m v f) = closedChecksum p t m v f ∧
    recomputeChecksum (zeroChecksum (closedPayload p t m v f)) = closedChecksum p t m v f ∧
    xorNibbleRange (closedPayload p t m v f) 5 24 = closedChecksum p t m v f ∧
    xorNibbleRange (closedPayload p t m v f) 5 23 ^^^ 1 = closedChecksum p t m v f := by
  simp only [closedPayload, recomputeChecksum_zeroChecksum, xorNibbleRange_5_24,
    xorNibbleRange_5_23, storedChecksum_eq]
  revert p t m v f
  apply forall_valid
  decide!

/-! ## Payload builder -/

/-- C1: for every valid temperature, mode and volume the command field (`s.s.cmd`, the high
nibble of payload byte 5) is 1 when full power is `UNSET` and power is 1, 2 when full power is
`UNSET` and power is 0, 6 when full power is 1 and 7 when full power is 0, for power 0 as well
as power 1 in the last two cases. -/
theorem C1_command_code_table (p t m v : Int) (hp : p = 0 ∨ p = 1) (ht : 18 ≤ t ∧ t ≤ 32)
    (hm : 0 ≤ m ∧ m ≤ 3) (hv : 0 ≤ v ∧ v ≤ 3) :
    ((buildSignal 1 t m v UNSET).get .cmd = 1 ∧ (buildSignal 1 t m v UNSET).c 5 / 16 = 1) ∧
    ((buildSignal 0 t m v UNSET).get .cmd = 2 ∧ (buildSignal 0 t m v UNSET).c 5 / 16 = 2) ∧
    ((buildSignal p t m v 1).get .cmd = 6 ∧ (buildSignal p t m v 1).c 5 / 16 = 6) ∧
    ((buildSignal p t m v 0).get .cmd = 7 ∧ (buildSignal p t m v 0).c 5 / 16 = 7) := by
  have h1 := buildSignal_values 1 t m v UNSET ⟨Or.inr rfl, ht, hm, hv, Or.inl rfl⟩
  have h2 := buildSignal_values 0 t m v UNSET ⟨Or.inl rfl, ht, hm, hv, Or.inl rfl⟩
  have h3 := buildSignal_values p t m v 1 ⟨hp, ht, hm, hv, Or.inr (Or.inr rfl)⟩
  have h4 := buildSignal_values p t m v 0 ⟨hp, ht, hm, hv, Or.inr (Or.inl rfl)⟩
  have e1 : cmdCode 1 UNSET = 1 := by decide
  have e2 : cmdCode 0 UNSET = 2 := by decide
  have e3 : cmdCode p 1 = 6 := by simp [cmdCode, UNSET]
  have e4 : cmdCode p 0 = 7 := by simp [cmdCode, UNSET]
  rw [h1.cmd, h1.c5, h2.cmd, h2.c5, h3.cmd, h3.c5, h4.cmd, h4.c5, e1, e2, e3, e4]
  decide

/-- Witness for C1 at power 0, temperature 24, mode 0, volume 0. -/
theorem C1_command_code_table_witness :
    (buildSignal 0 24 0 0 1).c 5 / 16 = 6 ∧ (buildSignal 0 24 0 0 0).c 5 / 16 = 7 :=
  have h := C1_command_code_table 0 24 0 0 (by decide) (by decide) (by decide) (by decide)
  ⟨h.2.2.1.2, h.2.2.2.2⟩

/-- C2 (the code at the failing input): run with `-p 1 -t 24 -m 0 -v 0` and no `-f`, the
variable `cmdIsFullPower` keeps its initial value `FALSE`, which is not `UNSET`; the payload
gets byte 5 = 0x71 (command code 7) and byte 10 = 0x01 (full-power flag set), the same payload
as with `-f 0`.  The bytes 0x11 and 0x00 that an unspecified full power calls for are produced
only when `-f -1` is given. -/
theorem C2_run_without_f :
    (parseOpts [.p 1, .t 24, .m 0, .v 0] Args.init).map Args.cmdIsFullPower = some FALSE ∧
    FALSE ≠ UNSET ∧
    mainPayload [.p 1, .t 24, .m 0, .v 0]
      = some [0xAA, 0x5A, 0xCF, 0x10, 0x07, 0x71, 0x00, 0x00, 0x08, 0x80, 0x01, 0xF0, 0x31] ∧
    mainPayload [.p 1, .t 24, .m 0, .v 0] = mainPayload [.p 1, .t 24, .m 0, .v 0, .f 0] ∧
    mainPayload [.p 1, .t 24, .m 0, .v 0, .f UNSET]
      = some [0xAA, 0x5A, 0xCF, 0x10, 0x07, 0x11, 0x00, 0x00, 0x08, 0x80, 0x00, 0xF0, 0x41] := by
  decide

/-- C3: for every valid parameter set the checksum stored in the payload (`s.s.checksum`, the
high nibble of byte 12) equals the XOR of all nibbles of bytes 2..12 of the payload with the
checksum field zeroed, leaving out only the low nibble of byte 2 and the high nibble of
byte 12. -/
theorem C3_checksum_roundtrip (p t m v f : Int) (hv : ValidParams p t m v f) :
    storedChecksum (buildPayload p t m v f) = (buildSignal p t m v f).get .checksum ∧
    storedChecksum (buildPayload p t m v f)
      = recomputeChecksum (zeroChecksum (buildPayload p t m v f)) := by
  have h := closedPayload_checksum p t m v f hv
  rw [buildPayload_closed p t m v f hv, (buildSignal_values p t m v f hv).checksum,
    h.1, h.2.1]
  exact ⟨rfl, rfl⟩

/-- Witness for C3 at power 1, temperature 24, mode 0, volume 0, full power unspecified. -/
theorem C3_checksum_roundtrip_witness :
    storedChecksum (buildPayload 1 24 0 0 UNSET) = 4 ∧
    recomputeChecksum (zeroChecksum (buildPayload 1 24 0 0 UNSET)) = 4 :=
  have h := C3_checksum_roundtrip 1 24 0 0 UNSET (by decide)
  ⟨by decide, h.2 ▸ by decide⟩

/-- C4 (as stated, refuted): it is not the case that for every valid parameter set the stored
checksum is the XOR-fold of the nibbles from the high nibble of byte 2 (nibble 5) through the
high nibble of byte 11 (nibble 23); for power 1, temperature 24, mode 0, volume 0 and full
power unspecified the stored checksum is 4 and that fold is 5. -/
theorem C4_range_to_byte11_fails :
    ¬ (∀ p t m v f : Int, ValidParams p t m v f →
        storedChecksum (buildPayload p t m v f)
          = xorNibbleRange (buildPayload p t m v f) 5 23) := by
  intro h
  have h1 := h 1 24 0 0 UNSET (by decide)
  revert h1
  decide

/-- C4 (amended): for every valid parameter set the stored checksum is the XOR-fold of the
contiguous nibble range from the high nibble of byte 2 (nibble 5) through the low nibble of
byte 12 (nibble 24), both inclusive; it differs from the fold that stops at the high nibble of
byte 11 by the low nibble of byte 12, which is 1. -/
theorem C4_checksum_range (p t m v f : Int) (hv : ValidParams p t m v f) :
    storedChecksum (buildPayload p t m v f)
      = xorNibbleRange (buildPayload p t m v f) 5 24 ∧
    storedChecksum (buildPayload p t m v f)
      = xorNibbleRange (buildPayload p t m v f) 5 23 ^^^ 1 := by
  have h := closedPayload_checksum p t m v f hv
  rw [buildPayload_closed p t m v f hv, h.1, h.2.2.1, h.2.2.2]
  exact ⟨rfl, rfl⟩

/-- Witness for C4 (amended) at power 0, temperature 32, mode 3, volume 3, full power 1. -/
theorem C4_checksum_range_witness :
    storedChecksum (buildPayload 0 32 3 3 1) = 14 ∧
    xorNibbleRange (buildPayload 0 32 3 3 1) 5 24 = 14 :=
  have h := C4_checksum_range 0 32 3 3 1 (by decide)
  ⟨by decide, h.1 ▸ by decide⟩

/-- C5: for every valid parameter set the payload has exactly 13 bytes, and byte 0 = 0xAA,
byte 1 = 0x5A, byte 2 = 0xCF, byte 3 = 0x10, the high nibble of byte 4 is 0, the low nibble of
byte 5 is 1, bits 2, 3 and 7 of byte 6 are 0, byte 7 = 0x00, byte 8 = 0x08, byte 9 = 0x80,
bits 1..7 of byte 10 are 0, byte 11 = 0xF0 and the low nibble of byte 12 is 1; the timer,
direction and eco fields are 0. -/
theorem C5_constant_fields (p t m v f : Int) (hv : ValidParams p t m v f) :
    (buildPayload p t m v f).length = 13 ∧
    (buildSignal p t m v f).c 0 = 0xAA ∧
    (buildSignal p t m v f).c 1 = 0x5A ∧
    (buildSignal p t m v f).c 2 = 0xCF ∧
    (buildSignal p t m v f).c 3 = 0x10 ∧
    (buildSignal p t m v f).c 4 / 16 = 0 ∧
    (buildSignal p t m v f).c 5 % 16 = 1 ∧
    ((buildSignal p t m v f).c 6 / 4 % 4 = 0 ∧ (buildSignal p t m v f).c 6 / 128 = 0) ∧
    (buildSignal p t m v f).c 7 = 0x00 ∧
    (buildSignal p t m v f).c 8 = 0x08 ∧
    (buildSignal p t m v f).c 9 = 0x80 ∧
    (buildSignal p t m v f).c 10 / 2 = 0 ∧
    (buildSignal p t m v f).c 11 = 0xF0 ∧
    (buildSignal p t m v f).c 12 % 16 = 1 ∧
    ((buildSignal p t m v f).get .timer_hour = 0 ∧
      (buildSignal p t m v f).get .timer_1hoff = 0 ∧
      (buildSignal p t m v f).get .timer_mode = 0 ∧
      (buildSignal p t m v f).get .direction = 0 ∧
      (buildSignal p t m v f).get .timer_30min = 0 ∧
      (buildSignal p t m v f).get .eco = 0) := by
  have h := buildSignal_values p t m v f hv
  obtain ⟨h1, h2, h3, h4, h5, h6, h7⟩ := closed_bounds p t m v f hv
  rw [h.c0, h.c1, h.c2, h.c3, h.c4, h.c5, h.c6, h.c7, h.c8, h.c9, h.c10, h.c11, h.c12,
    h.timer_hour, h.timer_1hoff, h.timer_mode, h.direction, h.timer_30min, h.eco]
  refine ⟨by simp [buildPayload, SIGNAL.bytes, DATA_LENGTH], rfl, rfl, rfl, rfl, ?_, ?_,
    ⟨?_, ?_⟩, rfl, rfl, rfl, ?_, rfl, ?_, rfl, rfl, rfl, rfl, rfl, rfl⟩ <;> omega

/-- Witness for C5 at power 1, temperature 18, mode 1, volume 2, full power 0. -/
theorem C5_constant_fields_witness :
    (buildPayload 1 18 1 2 0).length = 13 ∧ (buildSignal 1 18 1 2 0).c 11 = 0xF0 :=
  have h := C5_constant_fields 1 18 1 2 0 (by decide)
  ⟨h.1, h.2.2.2.2.2.2.2.2.2.2.2.2.1⟩

/-- C6: for every temperature `t` in 18..32 (other parameters valid) the temperature field
(`s.s.temp`, the low nibble of payload byte 4) holds exactly `t - 17`, a value in 1..15; in
particular 18 is stored as 1 and 32 as 15. -/
theorem C6_temperature_mapping (p t m v f : Int) (hv : ValidParams p t m v f) :
    (((buildSignal p t m v f).get .temp : Nat) : Int) = t - 17 ∧
    (((buildSignal p t m v f).c 4 % 16 : Nat) : Int) = t - 17 ∧
    (1 ≤ (buildSignal p t m v f).c 4 % 16 ∧ (buildSignal p t m v f).c 4 % 16 ≤ 15) ∧
    (buildSignal p 18 m v f).c 4 % 16 = 1 ∧
    (buildSignal p 32 m v f).c 4 % 16 = 15 := by
  have h := buildSignal_values p t m v f hv
  have hlo := buildSignal_values p 18 m v f
    ⟨hv.1, ⟨by decide, by decide⟩, hv.2.2.1, hv.2.2.2.1, hv.2.2.2.2⟩
  have hhi := buildSignal_values p 32 m v f
    ⟨hv.1, ⟨by decide, by decide⟩, hv.2.2.1, hv.2.2.2.1, hv.2.2.2.2⟩
  obtain ⟨-, ⟨ht1, ht2⟩, -⟩ := hv
  rw [h.temp, h.c4, hlo.c4, hhi.c4]
  refine ⟨by omega, by omega, ⟨by omega, by omega⟩, by decide, by decide⟩

/-- Witness for C6 at temperature 24. -/
theorem C6_temperature_mapping_witness : (buildSignal 1 24 0 0 UNSET).c 4 % 16 = 7 :=
  have h := (C6_temperature_mapping 1 24 0 0 UNSET (by decide)).2.1
  by omega

/-- C7: for every valid parameter set with volume code `v` the volume-set flag
(`s.s.set_volume`, bit 4 of payload byte 6) is 0 if `v = 0` and 1 otherwise, the volume level
(`s.s.volume`, bits 5..6 of byte 6) is 1 for `v = 1` and `v` itself for the codes 0, 2, 3, and
the mode field (`s.s.mode`, bits 0..1 of byte 6) is the mode value. -/
theorem C7_volume_and_mode (p t m v f : Int) (hv : ValidParams p t m v f) :
    ((buildSignal p t m v f).c 6 / 16 % 2 = 0 ↔ v = 0) ∧
    ((buildSignal p t m v f).c 6 / 16 % 2 = if v = 0 then 0 else 1) ∧
    (((buildSignal p t m v f).c 6 / 32 % 4 : Nat) : Int) = (if v = 1 then 1 else v) ∧
    (((buildSignal p t m v f).c 6 % 4 : Nat) : Int) = m ∧
    (buildSignal p t m v f).get .set_volume = (if v = 0 then 0 else 1) ∧
    (((buildSignal p t m v f).get .volume : Nat) : Int) = (if v = 1 then 1 else v) ∧
    (((buildSignal p t m v f).get .mode : Nat) : Int) = m := by
  have h := buildSignal_values p t m v f hv
  obtain ⟨-, -, ⟨hm1, hm2⟩, ⟨hv1, hv2⟩, -⟩ := hv
  rw [h.c6, h.set_volume, h.volume, h.mode]
  unfold volumeFlag
  refine ⟨?_, ?_, ?_, ?_, ?_, ?_, ?_⟩ <;> (try split_ifs) <;> omega

/-- Witness for C7 at mode 2 and volume 1. -/
theorem C7_volume_and_mode_witness :
    (buildSignal 1 24 2 1 UNSET).c 6 / 16 % 2 = 1 ∧
    (buildSignal 1 24 2 1 UNSET).get .set_volume = 1 :=
  have h := C7_volume_and_mode 1 24 2 1 UNSET (by decide)
  ⟨h.2.1, h.2.2.2.2.1⟩

/-- C8: for every valid parameter set the full-power flag (`s.s.fullpower`, bit 0 of payload
byte 10) is 1 when full power is given as 0 and when it is given as 1, and it is 0 exactly
when full power is `UNSET`. -/
theorem C8_fullpower_flag (p t m v f : Int) (hv : ValidParams p t m v f) :
    (f = 0 → (buildSignal p t m v f).c 10 % 2 = 1 ∧
      (buildSignal p t m v f).get .fullpower = 1) ∧
    (f = 1 → (buildSignal p t m v f).c 10 % 2 = 1 ∧
      (buildSignal p t m v f).get .fullpower = 1) ∧
    ((buildSignal p t m v f).c 10 % 2 = 0 ↔ f = UNSET) ∧
    ((buildSignal p t m v f).get .fullpower = 0 ↔ f = UNSET) := by
  have h := buildSignal_values p t m v f hv
  rw [h.c10, h.fullpower]
  unfold fullpowerFlag UNSET
  refine ⟨fun h0 => ?_, fun h1 => ?_, ?_, ?_⟩ <;> split_ifs with hf <;>
    first | omega | exact ⟨False.elim, fun hx => hf hx⟩

/-- Witness for C8 at full power 0. -/
theorem C8_fullpower_flag_witness :
    (buildSignal 1 24 0 0 0).c 10 % 2 = 1 ∧ (buildSignal 1 24 0 0 0).get .fullpower = 1 :=
  (C8_fullpower_flag 1 24 0 0 0 (by decide)).1 rfl

/-! ## Validation -/

/-- The condition of lines 210-214 is false exactly on the valid parameter sets. -/
theorem invalidArgs_eq_false_iff (p t m v f : Int) :
    invalidArgs p t m v f = false ↔ ValidParams p t m v f := by
  simp only [invalidArgs, ValidParams, UNSET, Bool.or_eq_false_iff, Bool.and_eq_false_iff,
    bne_eq_false_iff_eq, decide_eq_false_iff_not]
  omega

/-- Options that do not assign a variable leave it at the value it had. -/
theorem parseOpts_keeps (opts : List Opt) (a b : Args) (h : parseOpts opts a = some b) :
    ((∀ n, Opt.p n ∉ opts) → b.cmdPower = a.cmdPower) ∧
    ((∀ n, Opt.t n ∉ opts) → b.cmdTemp = a.cmdTemp) ∧
    ((∀ n, Opt.m n ∉ opts) → b.cmdMode = a.cmdMode) ∧
    ((∀ n, Opt.v n ∉ opts) → b.cmdVolume = a.cmdVolume) := by
  induction opts generalizing a with
  | nil =>
    simp only [parseOpts, Option.some.injEq] at h
    subst h
    exact ⟨fun _ => rfl, fun _ => rfl, fun _ => rfl, fun _ => rfl⟩
  | cons o rest ih =>
    cases o with
    | unknown => simp [parseOpts] at h
    | p n =>
      obtain ⟨h1, h2, h3, h4⟩ := ih _ h
      refine ⟨fun hn => absurd (List.mem_cons_self _ _) (hn n),
        fun hn => h2 fun k hk => hn k (List.mem_cons_of_mem _ hk),
        fun hn => h3 fun k hk => hn k (List.mem_cons_of_mem _ hk),
        fun hn => h4 fun k hk => hn k (List.mem_cons_of_mem _ hk)⟩
    | t n =>
      obtain ⟨h1, h2, h3, h4⟩ := ih _ h
      refine ⟨fun hn => h1 fun k hk => hn k (List.mem_cons_of_mem _ hk),
        fun hn => absurd (List.mem_cons_self _ _) (hn n),
        fun hn => h3 fun k hk => hn k (List.mem_cons_of_mem _ hk),
        fun hn => h4 fun k hk => hn k (List.mem_cons_of_mem _ hk)⟩
    | m n =>
      obtain ⟨h1, h2, h3, h4⟩ := ih _ h
      refine ⟨fun hn => h1 fun k hk => hn k (List.mem_cons_of_mem _ hk),
        fun hn => h2 fun k hk => hn k (List.mem_cons_of_mem _ hk),
        fun hn => absurd (List.mem_cons_self _ _) (hn n),
        fun hn => h4 fun k hk => hn k (List.mem_cons_of_mem _ hk)⟩
    | v n =>
      obtain ⟨h1, h2, h3, h4⟩ := ih _ h
      refine ⟨fun hn => h1 fun k hk => hn k (List.mem_cons_of_mem _ hk),
        fun hn => h2 fun k hk => hn k (List.mem_cons_of_mem _ hk),
        fun hn => h3 fun k hk => hn k (List.mem_cons_of_mem _ hk),
        fun hn => absurd (List.mem_cons_self _ _) (hn n)⟩
    | f n =>
      obtain ⟨h1, h2, h3, h4⟩ := ih _ h
      refine ⟨fun hn => h1 fun k hk => hn k (List.mem_cons_of_mem _ hk),
        fun hn => h2 fun k hk => hn k (List.mem_cons_of_mem _ hk),
        fun hn => h3 fun k hk => hn k (List.mem_cons_of_mem _ hk),
        fun hn => h4 fun k hk => hn k (List.mem_cons_of_mem _ hk)⟩

/-- What `checkAndBuild` returns, in terms of `ValidParams`. -/
theorem checkAndBuild_eq (a : Args) :
    checkAndBuild a =
      if ValidParams a.cmdPower a.cmdTemp a.cmdMode a.cmdVolume a.cmdIsFullPower then
        some (buildPayload a.cmdPower a.cmdTemp a.cmdMode a.cmdVolume a.cmdIsFullPower)
      else none := by
  unfold checkAndBuild
  by_cases hv : ValidParams a.cmdPower a.cmdTemp a.cmdMode a.cmdVolume a.cmdIsFullPower
  · rw [if_pos hv, (invalidArgs_eq_false_iff _ _ _ _ _).2 hv]
    rfl
  · have hne : invalidArgs a.cmdPower a.cmdTemp a.cmdMode a.cmdVolume a.cmdIsFullPower = true := by
      cases hi : invalidArgs a.cmdPower a.cmdTemp a.cmdMode a.cmdVolume a.cmdIsFullPower
      · exact absurd ((invalidArgs_eq_false_iff _ _ _ _ _).1 hi) hv
      · rfl
    rw [if_neg hv, hne]
    rfl

/-- C9: the parsed integers reach the payload builder exactly when power is 0 or 1, the
temperature is in 18..32, mode and volume are in 0..3 and full power is `UNSET`, 0 or 1;
otherwise `main` takes the usage/`EXIT_FAILURE` exit and builds nothing.  Temperature 17,
temperature 33, mode 4, volume 4 and power 2 are rejected whatever the other values are, and
so is every run in which one of `-p`, `-t`, `-m`, `-v` does not occur. -/
theorem C9_validation :
    (∀ p t m v f : Int, invalidArgs p t m v f = false ↔ ValidParams p t m v f) ∧
    (∀ (a : Args) (bs : List Nat), checkAndBuild a = some bs ↔
      ValidParams a.cmdPower a.cmdTemp a.cmdMode a.cmdVolume a.cmdIsFullPower ∧
      bs = buildPayload a.cmdPower a.cmdTemp a.cmdMode a.cmdVolume a.cmdIsFullPower) ∧
    (∀ (a : Args), checkAndBuild a = none ↔
      ¬ ValidParams a.cmdPower a.cmdTemp a.cmdMode a.cmdVolume a.cmdIsFullPower) ∧
    (∀ p t m v f : Int,
      checkAndBuild ⟨p, 17, m, v, f⟩ = none ∧ checkAndBuild ⟨p, 33, m, v, f⟩ = none ∧
      checkAndBuild ⟨p, t, 4, v, f⟩ = none ∧ checkAndBuild ⟨p, t, m, 4, f⟩ = none ∧
      checkAndBuild ⟨2, t, m, v, f⟩ = none) ∧
    (∀ opts : List Opt,
      ((∀ n, Opt.p n ∉ opts) ∨ (∀ n, Opt.t n ∉ opts) ∨ (∀ n, Opt.m n ∉ opts) ∨
        (∀ n, Opt.v n ∉ opts)) →
      mainPayload opts = none) := by
  refine ⟨invalidArgs_eq_false_iff, ?_, ?_, ?_, ?_⟩
  · intro a bs
    rw [checkAndBuild_eq]
    split_ifs with hv
    · simp only [Option.some.injEq, hv, true_and]
      exact eq_comm
    · simp [hv]
  · intro a
    rw [checkAndBuild_eq]
    split_ifs with hv <;> simp [hv]
  · intro p t m v f
    simp only [checkAndBuild_eq, ValidParams]
    refine ⟨?_, ?_, ?_, ?_, ?_⟩ <;> rw [if_neg] <;> omega
  · intro opts hmiss
    unfold mainPayload
    cases hp : parseOpts opts Args.init with
    | none => rfl
    | some b =>
      obtain ⟨h1, h2, h3, h4⟩ := parseOpts_keeps opts Args.init b hp
      simp only [checkAndBuild_eq, ValidParams]
      rw [if_neg]
      have e1 : Args.init.cmdPower = -1 := rfl
      have e2 : Args.init.cmdTemp = -1 := rfl
      have e3 : Args.init.cmdMode = -1 := rfl
      have e4 : Args.init.cmdVolume = -1 := rfl
      rcases hmiss with h | h | h | h
      · have := h1 h
        omega
      · have := h2 h
        omega
      · have := h3 h
        omega
      · have := h4 h
        omega

/-- Witness for C9: a run without `-p` is rejected, and so is temperature 33. -/
theorem C9_validation_witness :
    mainPayload [.t 24, .m 0, .v 0] = none ∧ mainPayload [.p 1, .t 33, .m 0, .v 0] = none :=
  ⟨C9_validation.2.2.2.2 [.t 24, .m 0, .v 0] (Or.inl (fun n hn => by simp at hn)),
   (C9_validation.2.2.2.1 1 0 0 0 0).2.1⟩

/-! ## Pulse framing -/

/-- Appending one computed entry per element is appending the mapped list. -/
theorem foldl_append_singleton {α β : Type} (g : β → α) (l : List β) (acc : List α) :
    l.foldl (fun pl j => pl ++ [g j]) acc = acc ++ l.map g := by
  induction l generalizing acc with
  | nil => simp
  | cons x xs ih => simp [ih]

/-- The data part of the table: the eight entries of every byte, in order. -/
theorem foldl_bytePulses (data : List Nat) (acc : List Pulse) :
    data.foldl (fun pl d => (List.range 8).foldl (fun pl j => pl ++ [bitPulse d j]) pl) acc
      = acc ++ data.flatMap bytePulses := by
  have hstep : (fun (pl : List Pulse) (d : Nat) =>
      (List.range 8).foldl (fun pl j => pl ++ [bitPulse d j]) pl)
      = fun pl d => pl ++ bytePulses d := by
    funext pl d
    exact foldl_append_singleton _ _ _
  rw [hstep]
  induction data generalizing acc with
  | nil => simp
  | cons d ds ih => simp only [List.foldl_cons, ih, List.flatMap_cons, List.append_assoc]

/-- The table is the leader, the entries of the data bytes and the trailer. -/
theorem pulseTable_eq (data : List Nat) :
    pulseTable data
      = { onLen := 8 * T_ON, offLen := 4 * T_OFF } ::
          (data.flatMap bytePulses ++ [{ onLen := T_ON, offLen := T_TRAIL }]) := by
  simp only [pulseTable, foldl_bytePulses, List.cons_append, List.nil_append]

/-- Each data byte contributes eight entries. -/
theorem length_flatMap_bytePulses (data : List Nat) :
    (data.flatMap bytePulses).length = 8 * data.length := by
  induction data with
  | nil => rfl
  | cons d ds ih =>
    simp only [List.flatMap_cons, List.length_append, ih, List.length_cons, bytePulses,
      List.length_map, List.length_range]
    omega

/-- Entry `8 * i + j` of the data part belongs to bit `j` of byte `i`. -/
theorem getElem?_flatMap_bytePulses (data : List Nat) (i j : Nat) (hi : i < data.length)
    (hj : j < 8) :
    (data.flatMap bytePulses)[8 * i + j]? = some (bitPulse (data.getD i 0) j) := by
  induction data generalizing i with
  | nil => simp at hi
  | cons d ds ih =>
    have hlen : (bytePulses d).length = 8 := by simp [bytePulses]
    rw [List.flatMap_cons]
    cases i with
    | zero =>
      rw [List.getElem?_append_left (by omega)]
      simp [bytePulses, List.getElem?_range hj]
    | succ k =>
      rw [List.getElem?_append_right (by omega), hlen]
      have e : 8 * (k + 1) + j - 8 = 8 * k + j := by omega
      rw [e, ih k (by simpa using hi)]
      simp

/-- Line 114 extracts bit `j` of the byte. -/
theorem dataBit_eq (d j : Nat) : dataBit d j = d / 2 ^ j % 2 := by
  simp [dataBit, Nat.shiftRight_eq_div_pow, Nat.and_one_is_mod]

/-- C10: for a payload of `n` bytes `encode_aeha` stores exactly `1 + 8 * n + 1` mark/space
pairs (106 for the 13 bytes of the program, which fits the table of `MAX_ENCDATA_LENGTH`
entries): pair 0 is the leader (3904, 1856); pair `1 + 8 * i + j`, for byte `i` and bit `j`
in 0..7, has mark 488 and space 1392 if bit `j` (bit 0 the least significant) of byte `i` is
1 and 464 if it is 0; the last pair is the trailer (488, 8000). -/
theorem C10_pulse_framing (data : List Nat) :
    (pulseTable data).length = 1 + 8 * data.length + 1 ∧
    (pulseTable data)[0]? = some { onLen := 3904, offLen := 1856 } ∧
    (∀ i j, i < data.length → j < 8 →
      (pulseTable data)[1 + 8 * i + j]?
        = some { onLen := 488,
                 offLen := if data.getD i 0 / 2 ^ j % 2 = 1 then 1392 else 464 }) ∧
    (pulseTable data)[1 + 8 * data.length]? = some { onLen := 488, offLen := 8000 } ∧
    (data.length = 13 → (pulseTable data).length = 106 ∧ 106 ≤ MAX_ENCDATA_LENGTH) := by
  have hlen := length_flatMap_bytePulses data
  have hl : (pulseTable data).length = 1 + 8 * data.length + 1 := by
    rw [pulseTable_eq]
    simp only [List.length_cons, List.length_append, hlen, List.length_nil]
    omega
  refine ⟨hl, ?_, ?_, ?_, ?_⟩
  · rw [pulseTable_eq]
    simp [T_ON, T_OFF]
  · intro i j hi hj
    have e : 1 + 8 * i + j = (8 * i + j) + 1 := by omega
    rw [pulseTable_eq, e, List.getElem?_cons_succ,
      List.getElem?_append_left (by rw [hlen]; omega),
      getElem?_flatMap_bytePulses data i j hi hj]
    simp only [bitPulse, dataBit_eq, T_ON, T_OFF]
  · have e : 1 + 8 * data.length = 8 * data.length + 1 := by omega
    rw [pulseTable_eq, e, List.getElem?_cons_succ,
      List.getElem?_append_right (by rw [hlen]), hlen]
    simp [T_ON, T_TRAIL]
  · intro h13
    rw [hl, h13]
    exact ⟨rfl, by decide⟩

/-- Witness for C10 on the payload of power 1, temperature 24, mode 0, volume 0 with full
power `UNSET`: 106 pairs, and bit 1 of byte 0 (0xAA) gives the pair (488, 1392). -/
theorem C10_pulse_framing_witness :
    (pulseTable (buildPayload 1 24 0 0 UNSET)).length = 106 ∧
    (pulseTable (buildPayload 1 24 0 0 UNSET))[1 + 8 * 0 + 1]?
      = some { onLen := 488, offLen := 1392 } :=
  have h := C10_pulse_framing (buildPayload 1 24 0 0 UNSET)
  ⟨(h.2.2.2.2 (by decide)).1, h.2.2.1 0 1 (by decide) (by decide)⟩

/-! ## The resampling loop -/

/-- Reading an array after one assignment. -/
theorem getD_set_eq (l : List Nat) (j v k : Nat) :
    (l.set j v).getD k 0 = if k = j ∧ j < l.length then v else l.getD k 0 := by
  simp only [List.getD_eq_getElem?_getD, List.getElem?_set]
  by_cases h : j = k
  · subst h
    by_cases h2 : j < l.length
    · simp [h2]
    · simp [h2, List.getElem?_eq_none (Nat.le_of_not_lt h2)]
  · have h3 : ¬ k = j := fun e => h e.symm
    simp [h, h3]

/-- What one run of an inner loop does: it writes `v` to the indices from `j` up to the end
position, as far as they are below the capacity, moves `pos` behind the last index written
and leaves `endt` alone; the guard is not taken if the end position is within the capacity. -/
theorem fillLoop_spec (v n j : Nat) (st : Resample)
    (hlen : st.out.length = MAX_ENCDATA_LENGTH) :
    (fillLoop v n j st).endt = st.endt ∧
    (fillLoop v n j st).out.length = MAX_ENCDATA_LENGTH ∧
    (fillLoop v n j st).pos
      = (if j < min (j + n) MAX_ENCDATA_LENGTH then min (j + n) MAX_ENCDATA_LENGTH
         else st.pos) ∧
    (∀ k, (fillLoop v n j st).out.getD k 0
      = if j ≤ k ∧ k < min (j + n) MAX_ENCDATA_LENGTH then v else st.out.getD k 0) ∧
    (fillLoop v n j st).log
      = st.log ++ List.range' j (min (j + n) MAX_ENCDATA_LENGTH - j) ∧
    (j + n ≤ MAX_ENCDATA_LENGTH → (fillLoop v n j st).skipped = st.skipped) := by
  induction n generalizing j st with
  | zero =>
    refine ⟨rfl, hlen, ?_, ?_, ?_, fun _ => rfl⟩
    · have : ¬ j < min (j + 0) MAX_ENCDATA_LENGTH := by omega
      rw [if_neg this]
      rfl
    · intro k
      have : ¬ (j ≤ k ∧ k < min (j + 0) MAX_ENCDATA_LENGTH) := by omega
      rw [if_neg this]
      rfl
    · have : min (j + 0) MAX_ENCDATA_LENGTH - j = 0 := by omega
      rw [this]
      simp [fillLoop]
  | succ n ih =>
    by_cases hj : j ≥ MAX_ENCDATA_LENGTH
    · have hstep : fillLoop v (n + 1) j st
          = fillLoop v n (j + 1) { st with skipped := st.skipped + 1 } := by
        simp [fillLoop, hj]
      obtain ⟨h1, h2, h3, h4, h5, -⟩ := ih (j + 1) { st with skipped := st.skipped + 1 } hlen
      rw [hstep]
      refine ⟨h1, h2, ?_, ?_, ?_, ?_⟩
      · rw [h3]
        have a1 : ¬ j + 1 < min (j + 1 + n) MAX_ENCDATA_LENGTH := by omega
        have a2 : ¬ j < min (j + (n + 1)) MAX_ENCDATA_LENGTH := by omega
        rw [if_neg a1, if_neg a2]
      · intro k
        rw [h4 k]
        have a1 : ¬ (j + 1 ≤ k ∧ k < min (j + 1 + n) MAX_ENCDATA_LENGTH) := by omega
        have a2 : ¬ (j ≤ k ∧ k < min (j + (n + 1)) MAX_ENCDATA_LENGTH) := by omega
        rw [if_neg a1, if_neg a2]
      · rw [h5]
        have a1 : min (j + 1 + n) MAX_ENCDATA_LENGTH - (j + 1) = 0 := by omega
        have a2 : min (j + (n + 1)) MAX_ENCDATA_LENGTH - j = 0 := by omega
        rw [a1, a2]
        rfl
      · intro hfit
        omega
    · have hstep : fillLoop v (n + 1) j st
          = fillLoop v n (j + 1)
              { st with out := st.out.set j v, pos := j + 1, log := st.log ++ [j] } := by
        simp [fillLoop, hj]
      have hlen2 : (st.out.set j v).length = MAX_ENCDATA_LENGTH := by
        rw [List.length_set]
        exact hlen
      obtain ⟨h1, h2, h3, h4, h5, h6⟩ := ih (j + 1)
        { st with out := st.out.set j v, pos := j + 1, log := st.log ++ [j] } hlen2
      rw [hstep]
      refine ⟨h1, h2, ?_, ?_, ?_, ?_⟩
      · rw [h3]
        have a2 : j < min (j + (n + 1)) MAX_ENCDATA_LENGTH := by omega
        rw [if_pos a2]
        dsimp only
        split_ifs <;> omega
      · intro k
        rw [h4 k]
        simp only [getD_set_eq, hlen]
        split_ifs <;> first | rfl | omega
      · rw [h5]
        have a2 : min (j + (n + 1)) MAX_ENCDATA_LENGTH - j
            = (min (j + 1 + n) MAX_ENCDATA_LENGTH - (j + 1)) + 1 := by omega
        rw [a2, List.range'_succ]
        simp
      · intro hfit
        exact h6 (by omega)

/-- What one turn of the loop over the pulses does when `pos` is the clipped sample position
of the clock: the mark samples become 1, the space samples 0, `pos` is again the clipped
sample position of the advanced clock. -/
theorem resampleStep_spec (st : Resample) (p : Pulse)
    (hlen : st.out.length = MAX_ENCDATA_LENGTH)
    (hpos : st.pos = min (st.endt / 100) MAX_ENCDATA_LENGTH) :
    (resampleStep st p).endt = st.endt + p.onLen + p.offLen ∧
    (resampleStep st p).pos
      = min ((st.endt + p.onLen + p.offLen) / 100) MAX_ENCDATA_LENGTH ∧
    (resampleStep st p).out.length = MAX_ENCDATA_LENGTH ∧
    (∀ k, (resampleStep st p).out.getD k 0
      = if st.pos ≤ k ∧ k < min ((st.endt + p.onLen) / 100) MAX_ENCDATA_LENGTH then 1
        else if min ((st.endt + p.onLen) / 100) MAX_ENCDATA_LENGTH ≤ k ∧
            k < min ((st.endt + p.onLen + p.offLen) / 100) MAX_ENCDATA_LENGTH then 0
        else st.out.getD k 0) ∧
    (resampleStep st p).log
      = st.log ++ List.range' st.pos
          (min ((st.endt + p.onLen + p.offLen) / 100) MAX_ENCDATA_LENGTH - st.pos) ∧
    ((st.endt + p.onLen + p.offLen) / 100 ≤ MAX_ENCDATA_LENGTH →
      (resampleStep st p).skipped = st.skipped) := by
  obtain ⟨a1, a2, a3, a4, a5, a6⟩ := fillLoop_spec 1 ((st.endt + p.onLen) / 100 - st.pos)
    st.pos { st with endt := st.endt + p.onLen } hlen
  generalize hf1 : fillLoop 1 ((st.endt + p.onLen) / 100 - st.pos) st.pos
    { st with endt := st.endt + p.onLen } = f1 at a1 a2 a3 a4 a5 a6
  obtain ⟨b1, b2, b3, b4, b5, b6⟩ := fillLoop_spec 0 ((f1.endt + p.offLen) / 100 - f1.pos)
    f1.pos { f1 with endt := f1.endt + p.offLen } a2
  have hstep : resampleStep st p
      = fillLoop 0 ((f1.endt + p.offLen) / 100 - f1.pos) f1.pos
          { f1 with endt := f1.endt + p.offLen } := by
    rw [← hf1]
    rfl
  rw [hstep]
  dsimp only at a1 a3 a4 a5 a6 b1 b3 b4 b5 b6
  have e1 : f1.pos = min ((st.endt + p.onLen) / 100) MAX_ENCDATA_LENGTH := by
    rw [a3]
    split_ifs <;> omega
  have e0 : st.pos ≤ f1.pos := by omega
  refine ⟨by omega, ?_, b2, ?_, ?_, ?_⟩
  · rw [b3, a1]
    split_ifs <;> omega
  · intro k
    rw [b4 k, a4 k, a1, e1]
    split_ifs <;> first | rfl | omega
  · rw [b5, a5, a1, e1, List.append_assoc]
    congr 1
    have c1 : min ((st.endt + p.onLen) / 100) MAX_ENCDATA_LENGTH
        = st.pos + (min ((st.endt + p.onLen) / 100) MAX_ENCDATA_LENGTH - st.pos) := by omega
    have c2 : min (st.pos + ((st.endt + p.onLen) / 100 - st.pos)) MAX_ENCDATA_LENGTH - st.pos
        = min ((st.endt + p.onLen) / 100) MAX_ENCDATA_LENGTH - st.pos := by omega
    have c3 : min (min ((st.endt + p.onLen) / 100) MAX_ENCDATA_LENGTH
          + ((st.endt + p.onLen + p.offLen) / 100
              - min ((st.endt + p.onLen) / 100) MAX_ENCDATA_LENGTH)) MAX_ENCDATA_LENGTH
        - min ((st.endt + p.onLen) / 100) MAX_ENCDATA_LENGTH
        = min ((st.endt + p.onLen + p.offLen) / 100) MAX_ENCDATA_LENGTH
          - min ((st.endt + p.onLen) / 100) MAX_ENCDATA_LENGTH := by omega
    rw [c2, c3]
    nth_rewrite 2 [c1]
    rw [List.range'_append_1]
    congr 1
    omega
  · intro hfit
    rw [b6 (by omega), a6 (by omega)]

/-! ## The floor-quantised timeline -/

/-- Durations add up over concatenation. -/
theorem totalDuration_append (ps qs : List Pulse) :
    totalDuration (ps ++ qs) = totalDuration ps + totalDuration qs := by
  simp [totalDuration]

/-- A pulse of the first part of a table starts at the same time in the whole table. -/
theorem startTime_append_left (ps qs : List Pulse) (i : Nat) (hi : i ≤ ps.length) :
    startTime (ps ++ qs) i = startTime ps i := by
  unfold startTime
  rw [List.take_append_of_le_length hi]

/-- Start time plus duration of a pulse of the table is within the total duration. -/
theorem startTime_add_le (ps : List Pulse) (i : Nat) (p : Pulse) (h : ps[i]? = some p) :
    startTime ps i + p.duration ≤ totalDuration ps := by
  induction ps generalizing i with
  | nil => simp at h
  | cons q qs ih =>
    cases i with
    | zero =>
      simp only [List.getElem?_cons_zero, Option.some.injEq] at h
      subst h
      simp [startTime, totalDuration]
    | succ k =>
      simp only [List.getElem?_cons_succ] at h
      have := ih k h
      simp only [startTime, totalDuration, List.take_succ_cons, List.map_cons,
        List.sum_cons] at this ⊢
      omega

/-- The marks of a table extended by one pulse. -/
theorem inMark_append_singleton (ps : List Pulse) (p : Pulse) (j : Nat) :
    InMark (ps ++ [p]) j ↔
      InMark ps j ∨
        (totalDuration ps / 100 ≤ j ∧ j < (totalDuration ps + p.onLen) / 100) := by
  constructor
  · rintro ⟨i, q, hq, h1, h2⟩
    by_cases hi : i < ps.length
    · left
      rw [List.getElem?_append_left hi] at hq
      rw [startTime_append_left ps [p] i (Nat.le_of_lt hi)] at h1 h2
      exact ⟨i, q, hq, h1, h2⟩
    · right
      have hi2 : i = ps.length := by
        have hlt : i < (ps ++ [p]).length := by
          rcases Nat.lt_or_ge i (ps ++ [p]).length with h | h
          · exact h
          · rw [List.getElem?_eq_none h] at hq
            exact absurd hq (by simp)
        simp only [List.length_append, List.length_singleton] at hlt
        omega
      subst hi2
      rw [List.getElem?_append_right (Nat.le_refl _)] at hq
      simp only [Nat.sub_self, List.getElem?_cons_zero, Option.some.injEq] at hq
      subst hq
      rw [startTime_append_left ps [p] ps.length (Nat.le_refl _)] at h1 h2
      have e : startTime ps ps.length = totalDuration ps := by
        simp [startTime]
      rw [e] at h1 h2
      exact ⟨h1, h2⟩
  · rintro (⟨i, q, hq, h1, h2⟩ | ⟨h1, h2⟩)
    · have hi : i < ps.length := by
        rcases Nat.lt_or_ge i ps.length with h | h
        · exact h
        · rw [List.getElem?_eq_none h] at hq
          exact absurd hq (by simp)
      refine ⟨i, q, ?_, ?_, ?_⟩
      · rw [List.getElem?_append_left hi]
        exact hq
      · rw [startTime_append_left ps [p] i (Nat.le_of_lt hi)]
        exact h1
      · rw [startTime_append_left ps [p] i (Nat.le_of_lt hi)]
        exact h2
    · refine ⟨ps.length, p, ?_, ?_, ?_⟩
      · rw [List.getElem?_append_right (Nat.le_refl _)]
        simp
      · rw [startTime_append_left ps [p] ps.length (Nat.le_refl _)]
        simpa [startTime] using h1
      · rw [startTime_append_left ps [p] ps.length (Nat.le_refl _)]
        simpa [startTime] using h2

/-- Every mark sample lies before the end of the timeline. -/
theorem inMark_lt (ps : List Pulse) (j : Nat) (h : InMark ps j) :
    j < totalDuration ps / 100 := by
  obtain ⟨i, p, hp, -, h2⟩ := h
  have h3 := startTime_add_le ps i p hp
  unfold Pulse.duration at h3
  omega

/-- The resampling loop after one more pulse. -/
theorem resample_append_singleton (ps : List Pulse) (p : Pulse) (out : List Nat) :
    resample (ps ++ [p]) out = resampleStep (resample ps out) p := by
  simp [resample, List.foldl_append]

/-- The state of the resampling loop after a pulse table has been processed, started on an
array of `MAX_ENCDATA_LENGTH` samples: the clock is the total duration, `pos` is the sample
position of the clock clipped to the capacity, the samples below `pos` are those of the
floor-quantised timeline, the samples from `pos` on are untouched, the indices written are
`0 .. pos-1` in this order, and the guard was never taken if the timeline fits. -/
theorem resample_inv (ps : List Pulse) (out0 : List Nat)
    (hlen : out0.length = MAX_ENCDATA_LENGTH) :
    (resample ps out0).endt = totalDuration ps ∧
    (resample ps out0).pos = min (totalDuration ps / 100) MAX_ENCDATA_LENGTH ∧
    (resample ps out0).out.length = MAX_ENCDATA_LENGTH ∧
    (∀ k, k < (resample ps out0).pos →
      (InMark ps k → (resample ps out0).out.getD k 0 = 1) ∧
      (¬ InMark ps k → (resample ps out0).out.getD k 0 = 0)) ∧
    (∀ k, (resample ps out0).pos ≤ k →
      (resample ps out0).out.getD k 0 = out0.getD k 0) ∧
    (resample ps out0).log = List.range (resample ps out0).pos ∧
    (totalDuration ps / 100 ≤ MAX_ENCDATA_LENGTH → (resample ps out0).skipped = 0) := by
  induction ps using List.reverseRecOn with
  | nil =>
    refine ⟨rfl, ?_, hlen, ?_, fun k _ => rfl, rfl, fun _ => rfl⟩
    · simp [resample, totalDuration]
    · intro k hk
      simp [resample] at hk
  | append_singleton ps p ih =>
    obtain ⟨i1, i2, i3, i4, i5, i6, i7⟩ := ih
    have hpos : (resample ps out0).pos
        = min ((resample ps out0).endt / 100) MAX_ENCDATA_LENGTH := by
      rw [i2, i1]
    obtain ⟨s1, s2, s3, s4, s5, s6⟩ := resampleStep_spec (resample ps out0) p i3 hpos
    rw [resample_append_singleton]
    rw [i1] at s1 s2 s4 s5 s6
    have htot : totalDuration (ps ++ [p]) = totalDuration ps + p.onLen + p.offLen := by
      rw [totalDuration_append]
      simp [totalDuration, Pulse.duration]
      omega
    rw [htot]
    refine ⟨s1, s2, s3, ?_, ?_, ?_, ?_⟩
    · intro k hk
      rw [s2] at hk
      rw [s4 k, inMark_append_singleton]
      by_cases hk1 : k < (resample ps out0).pos
      · obtain ⟨j1, j2⟩ := i4 k hk1
        have n1 : ¬ ((resample ps out0).pos ≤ k ∧
            k < min ((totalDuration ps + p.onLen) / 100) MAX_ENCDATA_LENGTH) := by omega
        have n2 : ¬ (min ((totalDuration ps + p.onLen) / 100) MAX_ENCDATA_LENGTH ≤ k ∧
            k < min ((totalDuration ps + p.onLen + p.offLen) / 100) MAX_ENCDATA_LENGTH) := by
          omega
        rw [if_neg n1, if_neg n2]
        constructor
        · rintro (h | h)
          · exact j1 h
          · omega
        · intro h
          exact j2 fun h2 => h (Or.inl h2)
      · have hnm : ¬ InMark ps k := fun h => by
          have := inMark_lt ps k h
          omega
        by_cases hk2 : k < min ((totalDuration ps + p.onLen) / 100) MAX_ENCDATA_LENGTH
        · have y1 : (resample ps out0).pos ≤ k ∧
              k < min ((totalDuration ps + p.onLen) / 100) MAX_ENCDATA_LENGTH := by omega
          rw [if_pos y1]
          refine ⟨fun _ => rfl, fun h => absurd (Or.inr (by omega)) h⟩
        · have n1 : ¬ ((resample ps out0).pos ≤ k ∧
              k < min ((totalDuration ps + p.onLen) / 100) MAX_ENCDATA_LENGTH) := by omega
          have y2 : min ((totalDuration ps + p.onLen) / 100) MAX_ENCDATA_LENGTH ≤ k ∧
              k < min ((totalDuration ps + p.onLen + p.offLen) / 100) MAX_ENCDATA_LENGTH := by
            omega
          rw [if_neg n1, if_pos y2]
          refine ⟨?_, fun _ => rfl⟩
          rintro (h | h)
          · exact absurd h hnm
          · omega
    · intro k hk
      rw [s2] at hk
      rw [s4 k]
      have n1 : ¬ ((resample ps out0).pos ≤ k ∧
          k < min ((totalDuration ps + p.onLen) / 100) MAX_ENCDATA_LENGTH) := by omega
      have n2 : ¬ (min ((totalDuration ps + p.onLen) / 100) MAX_ENCDATA_LENGTH ≤ k ∧
          k < min ((totalDuration ps + p.onLen + p.offLen) / 100) MAX_ENCDATA_LENGTH) := by
        omega
      rw [if_neg n1, if_neg n2]
      exact i5 k (by omega)
    · rw [s5, s2, i6, List.range_eq_range', List.range_eq_range']
      have c1 : min ((totalDuration ps + p.onLen + p.offLen) / 100) MAX_ENCDATA_LENGTH
            - (resample ps out0).pos + (resample ps out0).pos
          = min ((totalDuration ps + p.onLen + p.offLen) / 100) MAX_ENCDATA_LENGTH := by omega
      have c2 := List.range'_append_1 0 (resample ps out0).pos
        (min ((totalDuration ps + p.onLen + p.offLen) / 100) MAX_ENCDATA_LENGTH
          - (resample ps out0).pos)
      rw [Nat.zero_add, c1] at c2
      exact c2
    · intro hfit
      rw [s6 hfit]
      exact i7 (by omega)

/-- Reading the cleared sample array gives 0 everywhere. -/
theorem clearOut_getD (k : Nat) : clearOut.getD k 0 = 0 := by
  unfold clearOut
  rw [List.getD_eq_getElem?_getD, List.getElem?_replicate]
  split_ifs <;> rfl

/-- The cleared sample array has `MAX_ENCDATA_LENGTH` entries. -/
theorem clearOut_length : clearOut.length = MAX_ENCDATA_LENGTH := by
  simp [clearOut]

/-- Run on the cleared array, the resampling loop leaves in every sample below the capacity
the value of the floor-quantised timeline: 1 inside a mark and 0 elsewhere. -/
theorem resample_samples (ps : List Pulse) (j : Nat) (hj : j < MAX_ENCDATA_LENGTH) :
    (InMark ps j → (resample ps clearOut).out.getD j 0 = 1) ∧
    (¬ InMark ps j → (resample ps clearOut).out.getD j 0 = 0) := by
  obtain ⟨-, i2, -, i4, i5, -, -⟩ := resample_inv ps clearOut clearOut_length
  by_cases hk : j < (resample ps clearOut).pos
  · exact i4 j hk
  · have h0 : (resample ps clearOut).out.getD j 0 = 0 := by
      rw [i5 j (by omega), clearOut_getD]
    refine ⟨fun h => ?_, fun _ => h0⟩
    have := inMark_lt ps j h
    omega

/-- C11: for every payload, after `encode_aeha` has run on the zero-initialised buffer of
1920 samples, every sample `out[j]` with `j < 1920` is 1 if and only if there is a pulse `i`
with `floor(S_i / 100) ≤ j < floor((S_i + on_i) / 100)`, and it is 0 otherwise, in particular
at every index at or past `floor(total duration / 100)`; no condition on the length of the
timeline is needed, so this holds also when the timeline is longer than the buffer. -/
theorem C11_floor_resampling (data : List Nat) (j : Nat) (hj : j < MAX_ENCDATA_LENGTH) :
    (encode_aeha data clearOut).length = MAX_ENCDATA_LENGTH ∧
    ((encode_aeha data clearOut).getD j 0 = 1 ↔ InMark (pulseTable data) j) ∧
    (¬ InMark (pulseTable data) j → (encode_aeha data clearOut).getD j 0 = 0) ∧
    (totalDuration (pulseTable data) / 100 ≤ j → (encode_aeha data clearOut).getD j 0 = 0) := by
  obtain ⟨h1, h0⟩ := resample_samples (pulseTable data) j hj
  have hlen := (resample_inv (pulseTable data) clearOut clearOut_length).2.2.1
  refine ⟨hlen, ⟨fun h => ?_, h1⟩, h0, fun h => h0 fun hm => ?_⟩
  · by_contra hn
    have := h0 hn
    unfold encode_aeha encodeState at h
    omega
  · have := inMark_lt _ _ hm
    omega

/-- Witness for C11 on the payload of power 1, temperature 24, mode 0, volume 0 with full
power `UNSET`, at sample 0. -/
theorem C11_floor_resampling_witness :
    (encode_aeha (buildPayload 1 24 0 0 UNSET) clearOut).length = MAX_ENCDATA_LENGTH ∧
    ((encode_aeha (buildPayload 1 24 0 0 UNSET) clearOut).getD 0 0 = 1 ↔
      InMark (pulseTable (buildPayload 1 24 0 0 UNSET)) 0) :=
  have h := C11_floor_resampling (buildPayload 1 24 0 0 UNSET) 0 (by decide)
  ⟨h.1, h.2.1⟩

/-! ## Byte packing -/

/-- Entry `8 * i + j` of a list made of blocks of eight entries. -/
theorem getElem?_flatMap_range8 {α β : Type} (g : α → Nat → β) (l : List α) (i j : Nat)
    (hj : j < 8) :
    (l.flatMap fun b => (List.range 8).map (g b))[8 * i + j]? = l[i]?.map fun b => g b j := by
  induction l generalizing i with
  | nil => simp
  | cons d ds ih =>
    have hlen : ((List.range 8).map (g d)).length = 8 := by simp
    rw [List.flatMap_cons]
    cases i with
    | zero =>
      rw [List.getElem?_append_left (by omega)]
      simp [List.getElem?_range hj]
    | succ k =>
      rw [List.getElem?_append_right (by omega), hlen]
      have e : 8 * (k + 1) + j - 8 = 8 * k + j := by omega
      rw [e, ih k]
      simp

/-- Eight entries per element. -/
theorem length_flatMap_range8 {α β : Type} (g : α → Nat → β) (l : List α) :
    (l.flatMap fun b => (List.range 8).map (g b)).length = 8 * l.length := by
  induction l with
  | nil => rfl
  | cons d ds ih =>
    simp only [List.flatMap_cons, List.length_append, ih, List.length_cons, List.length_map,
      List.length_range]
    omega

/-- Entry `i` of the packed bytes. -/
theorem outBytes_getD (out : List Nat) (i : Nat) (hi : i < MAX_ENCBYTE_LENGTH) :
    (outBytes out).getD i 0 = packByte out i := by
  simp [outBytes, List.getD_eq_getElem?_getD, List.getElem?_range hi]

/-- A sample read from an array of zeros and ones is zero or one. -/
theorem getD_le_one (out : List Nat) (h01 : ∀ x ∈ out, x = 0 ∨ x = 1) (n : Nat) :
    out.getD n 0 ≤ 1 := by
  rw [List.getD_eq_getElem?_getD]
  cases h : out[n]? with
  | none => simp
  | some x =>
    have := h01 x (List.getElem?_mem h)
    simp only [Option.getD_some]
    omega

/-- Packing eight samples that are 0 or 1: the bits of the byte are the samples. -/
theorem pack_bits (x0 x1 x2 x3 x4 x5 x6 x7 : Nat) (h0 : x0 ≤ 1) (h1 : x1 ≤ 1) (h2 : x2 ≤ 1)
    (h3 : x3 ≤ 1) (h4 : x4 ≤ 1) (h5 : x5 ≤ 1) (h6 : x6 ≤ 1) (h7 : x7 ≤ 1) (P : Nat)
    (hP : P = x0 % 2 + 2 * (x1 % 2) + 4 * (x2 % 2) + 8 * (x3 % 2) + 16 * (x4 % 2)
      + 32 * (x5 % 2) + 64 * (x6 % 2) + 128 * (x7 % 2)) :
    (P / 1 % 2 = x0 ∧ P / 2 % 2 = x1 ∧ P / 4 % 2 = x2 ∧ P / 8 % 2 = x3 ∧ P / 16 % 2 = x4 ∧
      P / 32 % 2 = x5 ∧ P / 64 % 2 = x6 ∧ P / 128 % 2 = x7) ∧
    P = x0 * 1 + x1 * 2 + x2 * 4 + x3 * 8 + x4 * 16 + x5 * 32 + x6 * 64 + x7 * 128 := by
  subst hP
  refine ⟨⟨?_, ?_, ?_, ?_, ?_, ?_, ?_, ?_⟩, ?_⟩ <;> omega

/-- The sum of eight terms, written out. -/
theorem sum_range8 (g : Nat → Nat) :
    ((List.range 8).map g).sum = g 0 + g 1 + g 2 + g 3 + g 4 + g 5 + g 6 + g 7 := by
  simp only [List.range_succ, List.range_zero, List.nil_append, List.cons_append,
    List.map_cons, List.map_nil, List.sum_cons, List.sum_nil]
  omega

/-- The bits of a packed byte of an array of zeros and ones. -/
theorem packByte_bits (out : List Nat) (h01 : ∀ x ∈ out, x = 0 ∨ x = 1) (i : Nat) :
    (packByte out i / 1 % 2 = out.getD (i * 8 + 0) 0 ∧
      packByte out i / 2 % 2 = out.getD (i * 8 + 1) 0 ∧
      packByte out i / 4 % 2 = out.getD (i * 8 + 2) 0 ∧
      packByte out i / 8 % 2 = out.getD (i * 8 + 3) 0 ∧
      packByte out i / 16 % 2 = out.getD (i * 8 + 4) 0 ∧
      packByte out i / 32 % 2 = out.getD (i * 8 + 5) 0 ∧
      packByte out i / 64 % 2 = out.getD (i * 8 + 6) 0 ∧
      packByte out i / 128 % 2 = out.getD (i * 8 + 7) 0) ∧
    packByte out i
      = out.getD (i * 8 + 0) 0 * 1 + out.getD (i * 8 + 1) 0 * 2 + out.getD (i * 8 + 2) 0 * 4
        + out.getD (i * 8 + 3) 0 * 8 + out.getD (i * 8 + 4) 0 * 16
        + out.getD (i * 8 + 5) 0 * 32 + out.getD (i * 8 + 6) 0 * 64
        + out.getD (i * 8 + 7) 0 * 128 :=
  pack_bits _ _ _ _ _ _ _ _ (getD_le_one out h01 _) (getD_le_one out h01 _)
    (getD_le_one out h01 _) (getD_le_one out h01 _) (getD_le_one out h01 _)
    (getD_le_one out h01 _) (getD_le_one out h01 _) (getD_le_one out h01 _) _ rfl

/-- Bit `k` of packed byte `i` is sample `8 * i + k`. -/
theorem outBytes_bit (out : List Nat) (h01 : ∀ x ∈ out, x = 0 ∨ x = 1) (i k : Nat)
    (hi : i < 240) (hk : k < 8) :
    (outBytes out).getD i 0 / 2 ^ k % 2 = out.getD (8 * i + k) 0 := by
  rw [outBytes_getD out i hi, Nat.mul_comm 8 i]
  obtain ⟨⟨p0, p1, p2, p3, p4, p5, p6, p7⟩, -⟩ := packByte_bits out h01 i
  interval_cases k
  · exact p0
  · exact p1
  · exact p2
  · exact p3
  · exact p4
  · exact p5
  · exact p6
  · exact p7

/-- Unpacking the packed bytes of 1920 samples that are 0 or 1 gives the samples back. -/
theorem unpackBytes_outBytes (out : List Nat) (hlen : out.length = MAX_ENCDATA_LENGTH)
    (h01 : ∀ x ∈ out, x = 0 ∨ x = 1) : unpackBytes (outBytes out) = out := by
  apply List.ext_getElem?
  intro n
  by_cases hn : n < MAX_ENCDATA_LENGTH
  · have hn2 : n < 1920 := hn
    have e : n = 8 * (n / 8) + n % 8 := by omega
    have hi : n / 8 < 240 := by omega
    have hk : n % 8 < 8 := by omega
    have hlen2 : n / 8 < (outBytes out).length := by
      simp only [outBytes, List.length_map, List.length_range, MAX_ENCBYTE_LENGTH]
      omega
    have hn3 : n < out.length := by omega
    have h1 := outBytes_bit out h01 (n / 8) (n % 8) hi hk
    rw [← e, List.getD_eq_getElem?_getD, List.getD_eq_getElem?_getD,
      List.getElem?_eq_getElem hlen2, List.getElem?_eq_getElem hn3] at h1
    simp only [Option.getD_some] at h1
    unfold unpackBytes
    nth_rewrite 1 [e]
    rw [getElem?_flatMap_range8 _ _ _ _ hk, List.getElem?_eq_getElem hlen2,
      List.getElem?_eq_getElem hn3, Option.map_some', h1]
  · have l1 : (unpackBytes (outBytes out)).length ≤ n := by
      unfold unpackBytes
      rw [length_flatMap_range8]
      simp only [outBytes, List.length_map, List.length_range, MAX_ENCBYTE_LENGTH]
      simp only [MAX_ENCDATA_LENGTH] at hn
      omega
    rw [List.getElem?_eq_none l1, List.getElem?_eq_none (by omega)]

/-- C12: for every sequence of 1920 samples that are 0 or 1 the output has exactly 240 bytes;
bit `k` of output byte `i` is sample `8 * i + k`, so byte `i` is the sum of
`sample[8 * i + k] * 2 ^ k` over `k < 8`, and unpacking the 240 bytes least significant bit
first gives back the sample sequence. -/
theorem C12_byte_packing (out : List Nat) (hlen : out.length = MAX_ENCDATA_LENGTH)
    (h01 : ∀ x ∈ out, x = 0 ∨ x = 1) :
    (outBytes out).length = 240 ∧
    (∀ i k, i < 240 → k < 8 → (outBytes out).getD i 0 / 2 ^ k % 2 = out.getD (8 * i + k) 0) ∧
    (∀ i, i < 240 → (outBytes out).getD i 0
      = ((List.range 8).map fun k => out.getD (8 * i + k) 0 * 2 ^ k).sum) ∧
    unpackBytes (outBytes out) = out := by
  refine ⟨by simp [outBytes, MAX_ENCBYTE_LENGTH], outBytes_bit out h01, ?_,
    unpackBytes_outBytes out hlen h01⟩
  intro i hi
  rw [outBytes_getD out i hi, Nat.mul_comm 8 i, sum_range8]
  exact (packByte_bits out h01 i).2

/-- Witness for C12 on the all-zero sample sequence. -/
theorem C12_byte_packing_witness :
    (outBytes clearOut).length = 240 ∧ unpackBytes (outBytes clearOut) = clearOut :=
  have h := C12_byte_packing clearOut clearOut_length (fun x hx => by
    simp only [clearOut, List.mem_replicate] at hx
    exact Or.inl hx.2)
  ⟨h.1, h.2.2.2⟩

/-! ## The write cursor -/

/-- The clock of a longer prefix of the table is not earlier. -/
theorem totalDuration_take_le (ps : List Pulse) (n : Nat) :
    totalDuration (ps.take n) ≤ totalDuration (ps.take (n + 1)) := by
  induction ps generalizing n with
  | nil => simp
  | cons q qs ih =>
    cases n with
    | zero => simp [totalDuration]
    | succ k =>
      have := ih k
      simp only [totalDuration, List.take_succ_cons, List.map_cons, List.sum_cons] at this ⊢
      omega

/-- The state after `n + 1` pulses is one turn of the loop applied to the state after `n`. -/
theorem resample_take_succ (ps : List Pulse) (out : List Nat) (n : Nat) (p : Pulse)
    (h : ps[n]? = some p) :
    resample (ps.take (n + 1)) out = resampleStep (resample (ps.take n) out) p := by
  rw [List.take_succ, h]
  exact resample_append_singleton _ _ _

/-- C13: for every payload, also one whose timeline is longer than the buffer: from one pulse
to the next the write cursor `pos` does not decrease and it never exceeds 1920; no sample
index at or above 1920 is written; no index is written twice (the indices written are
`0, 1, .., pos - 1` in this order); and all pulses of the table are processed, the clock
ending at the total duration. -/
theorem C13_cursor_invariant (data : List Nat) :
    (∀ n p, (pulseTable data)[n]? = some p →
      resample ((pulseTable data).take (n + 1)) clearOut
        = resampleStep (resample ((pulseTable data).take n) clearOut) p) ∧
    (∀ n, (resample ((pulseTable data).take n) clearOut).pos
        ≤ (resample ((pulseTable data).take (n + 1)) clearOut).pos) ∧
    (∀ n, (resample ((pulseTable data).take n) clearOut).pos ≤ MAX_ENCDATA_LENGTH) ∧
    (∀ j ∈ (encodeState data clearOut).log, j < MAX_ENCDATA_LENGTH) ∧
    (encodeState data clearOut).log.Nodup ∧
    (encodeState data clearOut).log = List.range (encodeState data clearOut).pos ∧
    encodeState data clearOut
      = resample ((pulseTable data).take (pulseTable data).length) clearOut ∧
    (encodeState data clearOut).endt = totalDuration (pulseTable data) := by
  have hinv := fun ps => resample_inv ps clearOut clearOut_length
  obtain ⟨f1, f2, -, -, -, f6, -⟩ := hinv (pulseTable data)
  refine ⟨fun n p h => resample_take_succ _ _ n p h, ?_, ?_, ?_, ?_, f6, ?_, f1⟩
  · intro n
    rw [(hinv _).2.1, (hinv _).2.1]
    have := totalDuration_take_le (pulseTable data) n
    omega
  · intro n
    rw [(hinv _).2.1]
    omega
  · intro j hj
    unfold encodeState at hj
    rw [f6, List.mem_range, f2] at hj
    omega
  · unfold encodeState
    rw [f6]
    exact List.nodup_range _
  · rw [List.take_length]
    rfl

/-- Witness for C13 on the one-byte payload 0xFF. -/
theorem C13_cursor_invariant_witness :
    (encodeState [0xFF] clearOut).log.Nodup ∧
    (encodeState [0xFF] clearOut).endt = totalDuration (pulseTable [0xFF]) :=
  have h := C13_cursor_invariant [0xFF]
  ⟨h.2.2.2.2.1, h.2.2.2.2.2.2.2⟩

/-! ## Duration of the timeline -/

/-- Duration of the eight pulses of a byte, written out. -/
theorem totalDuration_bytePulses (d : Nat) :
    totalDuration (bytePulses d)
      = (bitPulse d 0).duration + (bitPulse d 1).duration + (bitPulse d 2).duration
        + (bitPulse d 3).duration + (bitPulse d 4).duration + (bitPulse d 5).duration
        + (bitPulse d 6).duration + (bitPulse d 7).duration := by
  unfold totalDuration bytePulses
  rw [List.map_map]
  exact sum_range8 _

/-- A data pulse lasts 952 or 1880 microseconds. -/
theorem bitPulse_duration (d j : Nat) :
    (bitPulse d j).duration = 952 ∨ (bitPulse d j).duration = 1880 := by
  unfold bitPulse Pulse.duration T_ON T_OFF
  split_ifs
  · right
    rfl
  · left
    rfl

/-- The eight pulses of a byte last at most 15040 microseconds. -/
theorem totalDuration_bytePulses_le (d : Nat) : totalDuration (bytePulses d) ≤ 15040 := by
  rw [totalDuration_bytePulses]
  have h0 := bitPulse_duration d 0
  have h1 := bitPulse_duration d 1
  have h2 := bitPulse_duration d 2
  have h3 := bitPulse_duration d 3
  have h4 := bitPulse_duration d 4
  have h5 := bitPulse_duration d 5
  have h6 := bitPulse_duration d 6
  have h7 := bitPulse_duration d 7
  omega

/-- Duration of the whole table: leader, data pulses, trailer. -/
theorem totalDuration_pulseTable (data : List Nat) :
    totalDuration (pulseTable data)
      = 5760 + totalDuration (data.flatMap bytePulses) + 8488 := by
  rw [pulseTable_eq]
  have h := totalDuration_append (data.flatMap bytePulses)
    [{ onLen := T_ON, offLen := T_TRAIL }]
  simp only [totalDuration, List.map_cons, List.sum_cons, List.map_nil, List.sum_nil,
    Pulse.duration, T_ON, T_OFF, T_TRAIL] at h ⊢
  omega

/-- Duration of the data pulses of the closed-form payload. -/
theorem totalDuration_closedPayload (p t m v f : Int) :
    totalDuration ((closedPayload p t m v f).flatMap bytePulses) ≤ 155616 := by
  have c0 : totalDuration (bytePulses 0xAA) = 11328 := by decide
  have c1 : totalDuration (bytePulses 0x5A) = 11328 := by decide
  have c2 : totalDuration (bytePulses 0xCF) = 13184 := by decide
  have c3 : totalDuration (bytePulses 0x10) = 8544 := by decide
  have c7 : totalDuration (bytePulses 0x00) = 7616 := by decide
  have c8 : totalDuration (bytePulses 0x08) = 8544 := by decide
  have c9 : totalDuration (bytePulses 0x80) = 8544 := by decide
  have c11 : totalDuration (bytePulses 0xF0) = 11328 := by decide
  have v4 := totalDuration_bytePulses_le (t - 17).toNat
  have v5 := totalDuration_bytePulses_le (0x01 + 16 * cmdCode p f)
  have v6 := totalDuration_bytePulses_le (m.toNat + 16 * volumeFlag v + 32 * v.toNat)
  have v10 := totalDuration_bytePulses_le (fullpowerFlag f)
  have v12 := totalDuration_bytePulses_le (0x01 + 16 * closedChecksum p t m v f)
  simp only [closedPayload, List.flatMap_cons, List.flatMap_nil, totalDuration_append, c0, c1,
    c2, c3, c7, c8, c9, c11]
  have hnil : totalDuration [] = 0 := rfl
  rw [hnil]
  omega

/-- C14: for every parameter set accepted by the validation the 106 pulses of the built
payload last less than 192000 microseconds, so `floor(total / 100) ≤ 1920`; the capacity
guard is never taken, `pos` ends at `floor(total / 100)` and every sample of the waveform,
the trailer included, is written to the buffer. -/
theorem C14_no_truncation (p t m v f : Int) (hv : ValidParams p t m v f) :
    (pulseTable (buildPayload p t m v f)).length = 106 ∧
    totalDuration (pulseTable (buildPayload p t m v f)) < 192000 ∧
    totalDuration (pulseTable (buildPayload p t m v f)) / 100 ≤ MAX_ENCDATA_LENGTH ∧
    (encodeState (buildPayload p t m v f) clearOut).skipped = 0 ∧
    (encodeState (buildPayload p t m v f) clearOut).pos
      = totalDuration (pulseTable (buildPayload p t m v f)) / 100 ∧
    (encodeState (buildPayload p t m v f) clearOut).log
      = List.range (totalDuration (pulseTable (buildPayload p t m v f)) / 100) := by
  have hd := totalDuration_closedPayload p t m v f
  have ht := totalDuration_pulseTable (buildPayload p t m v f)
  rw [buildPayload_closed p t m v f hv] at ht ⊢
  obtain ⟨-, i2, -, -, -, i6, i7⟩ :=
    resample_inv (pulseTable (closedPayload p t m v f)) clearOut clearOut_length
  have hfit : totalDuration (pulseTable (closedPayload p t m v f)) / 100
      ≤ MAX_ENCDATA_LENGTH := by
    unfold MAX_ENCDATA_LENGTH
    omega
  have hpos : (encodeState (closedPayload p t m v f) clearOut).pos
      = totalDuration (pulseTable (closedPayload p t m v f)) / 100 := by
    unfold encodeState
    rw [i2]
    omega
  refine ⟨?_, by omega, hfit, i7 hfit, hpos, ?_⟩
  · rw [pulseTable_eq]
    simp only [List.length_cons, List.length_append, length_flatMap_bytePulses,
      List.length_nil, closedPayload]
  · rw [← hpos]
    exact i6

/-- Witness for C14 at power 0, temperature 32, mode 3, volume 3, full power 1. -/
theorem C14_no_truncation_witness :
    totalDuration (pulseTable (buildPayload 0 32 3 3 1)) < 192000 ∧
    (encodeState (buildPayload 0 32 3 3 1) clearOut).skipped = 0 :=
  have h := C14_no_truncation 0 32 3 3 1 (by decide)
  ⟨h.2.1, h.2.2.2.1⟩

/-! ## Power, full power and the checksum -/

/-- With full power given as 0 or 1 the field assignments do not read the power value. -/
theorem setFields_power (s : SIGNAL) (p q t m v f : Int) (hf : f = 0 ∨ f = 1) :
    setFields s p t m v f = setFields s q t m v f := by
  have hne : f ≠ UNSET := by
    unfold UNSET
    omega
  simp only [setFields, if_neg hne]

/-- C15: for every temperature, mode and volume and for full power 0 as well as 1, the 13
payload bytes, checksum included, are the same for power 0 and power 1, and so are the 240
output bytes, also those of a whole run of `main`. -/
theorem C15_power_not_encoded (t m v f : Int) (hf : f = 0 ∨ f = 1) :
    buildPayload 0 t m v f = buildPayload 1 t m v f ∧
    encodePayload (buildPayload 0 t m v f) = encodePayload (buildPayload 1 t m v f) ∧
    mainOutput [.p 0, .t t, .m m, .v v, .f f] = mainOutput [.p 1, .t t, .m m, .v v, .f f] := by
  have h : buildPayload 0 t m v f = buildPayload 1 t m v f := by
    unfold buildPayload buildSignal
    rw [setFields_power clearSignal 0 1 t m v f hf]
  have hi : invalidArgs 0 t m v f = invalidArgs 1 t m v f := by
    simp [invalidArgs]
  refine ⟨h, by rw [h], ?_⟩
  show (checkAndBuild ⟨0, t, m, v, f⟩).map encodePayload
    = (checkAndBuild ⟨1, t, m, v, f⟩).map encodePayload
  unfold checkAndBuild
  simp only [hi, h]

/-- Witness for C15 at temperature 24, mode 0, volume 0, full power 1. -/
theorem C15_power_not_encoded_witness :
    buildPayload 0 24 0 0 1 = buildPayload 1 24 0 0 1 :=
  (C15_power_not_encoded 24 0 0 1 (Or.inr rfl)).1

/-- C17: for every valid parameter set the stored checksum (`s.s.checksum`, the high nibble
of payload byte 12) equals 2 XOR temperature field XOR command XOR mode XOR
(volume-set flag + 2 * volume level) XOR full-power flag, where the temperature field is
`t - 17`; the constant fields alone (all variable fields zero) fold to 2. -/
theorem C17_checksum_closed_form (p t m v f : Int) (hv : ValidParams p t m v f) :
    (buildSignal p t m v f).get .checksum
      = 2 ^^^ (buildSignal p t m v f).get .temp ^^^ (buildSignal p t m v f).get .cmd
        ^^^ (buildSignal p t m v f).get .mode
        ^^^ ((buildSignal p t m v f).get .set_volume
              + 2 * (buildSignal p t m v f).get .volume)
        ^^^ (buildSignal p t m v f).get .fullpower ∧
    storedChecksum (buildPayload p t m v f) = (buildSignal p t m v f).get .checksum ∧
    (((buildSignal p t m v f).get .temp : Nat) : Int) = t - 17 ∧
    storedChecksum (buildPayload p t m v f)
      = 2 ^^^ (t - 17).toNat ^^^ cmdCode p f ^^^ m.toNat ^^^ (volumeFlag v + 2 * v.toNat)
        ^^^ fullpowerFlag f ∧
    xorNibbleRange (SIGNAL.mk (layoutBits 0 0 0 0 0 0 0)).bytes 5 24 = 2 := by
  have h := buildSignal_values p t m v f hv
  have hc := (closedPayload_checksum p t m v f hv).1
  have hb := buildPayload_closed p t m v f hv
  obtain ⟨-, ⟨ht1, ht2⟩, -⟩ := hv
  rw [hb, h.checksum, h.temp, h.cmd, h.mode, h.set_volume,
    h.volume, h.fullpower, hc]
  refine ⟨rfl, rfl, by omega, rfl, by decide⟩

/-- Witness for C17 at power 1, temperature 24, mode 0, volume 0, full power unspecified:
2 XOR 7 XOR 1 = 4. -/
theorem C17_checksum_closed_form_witness :
    storedChecksum (buildPayload 1 24 0 0 UNSET) = 4 :=
  have h := (C17_checksum_closed_form 1 24 0 0 UNSET (by decide)).2.2.2.1
  h.trans (by decide)

/-! ## Position of the pulses on the timeline -/

/-- A pulse starts where its predecessor ends. -/
theorem startTime_succ (ps : List Pulse) (i : Nat) (p : Pulse) (h : ps[i]? = some p) :
    startTime ps (i + 1) = startTime ps i + p.duration := by
  unfold startTime
  rw [List.take_succ, h, totalDuration_append]
  simp [totalDuration]

/-- Start times do not decrease along the table. -/
theorem startTime_mono (ps : List Pulse) (i j : Nat) (h : i ≤ j) :
    startTime ps i ≤ startTime ps j := by
  induction j with
  | zero =>
    have : i = 0 := by omega
    subst this
    exact Nat.le_refl _
  | succ k ih =>
    rcases Nat.lt_or_ge i (k + 1) with h1 | h1
    · exact Nat.le_trans (ih (by omega)) (totalDuration_take_le ps k)
    · have : i = k + 1 := by omega
      subst this
      exact Nat.le_refl _

/-- Start time of a pulse of the second part of a table. -/
theorem startTime_append_right (xs ys : List Pulse) (i : Nat) :
    startTime (xs ++ ys) (xs.length + i) = totalDuration xs + startTime ys i := by
  unfold startTime
  rw [List.take_append, totalDuration_append]

/-- The samples between the end of the mark of a pulse and the start of the next pulse lie
in no mark. -/
theorem not_inMark_space (ps : List Pulse) (i : Nat) (p : Pulse) (k : Nat)
    (hp : ps[i]? = some p) (h1 : (startTime ps i + p.onLen) / 100 ≤ k)
    (h2 : k < startTime ps (i + 1) / 100) : ¬ InMark ps k := by
  rintro ⟨n, q, hq, g1, g2⟩
  have hs := startTime_succ ps i p hp
  have hsq := startTime_succ ps n q hq
  unfold Pulse.duration at hs hsq
  rcases Nat.lt_trichotomy n i with h | h | h
  · have := startTime_mono ps (n + 1) i h
    omega
  · subst h
    rw [hp] at hq
    simp only [Option.some.injEq] at hq
    subst hq
    omega
  · have := startTime_mono ps (i + 1) n h
    omega

/-! ## Decoding: different payloads give different output -/

/-- Every sample left by `encode_aeha` on the cleared buffer is 0 or 1. -/
theorem encode_aeha_01 (data : List Nat) :
    ∀ x ∈ encode_aeha data clearOut, x = 0 ∨ x = 1 := by
  intro x hx
  obtain ⟨n, hn⟩ := List.mem_iff_getElem?.1 hx
  have hlen : (encode_aeha data clearOut).length = MAX_ENCDATA_LENGTH :=
    (resample_inv (pulseTable data) clearOut clearOut_length).2.2.1
  have hlt : n < MAX_ENCDATA_LENGTH := by
    rcases Nat.lt_or_ge n (encode_aeha data clearOut).length with h | h
    · omega
    · rw [List.getElem?_eq_none h] at hn
      exact absurd hn (by simp)
  have hg : (encode_aeha data clearOut).getD n 0 = x := by
    rw [List.getD_eq_getElem?_getD, hn]
    rfl
  obtain ⟨h1, h0⟩ := resample_samples (pulseTable data) n hlt
  by_cases hm : InMark (pulseTable data) n
  · right
    rw [← hg]
    exact h1 hm
  · left
    rw [← hg]
    exact h0 hm

/-- The samples decide which sample indices lie in a mark. -/
theorem inMark_iff_of_samples_eq (p q : List Nat)
    (h : encode_aeha p clearOut = encode_aeha q clearOut) (k : Nat)
    (hk : k < MAX_ENCDATA_LENGTH) : InMark (pulseTable p) k ↔ InMark (pulseTable q) k := by
  obtain ⟨p1, p0⟩ := resample_samples (pulseTable p) k hk
  obtain ⟨q1, q0⟩ := resample_samples (pulseTable q) k hk
  have e : (resample (pulseTable p) clearOut).out = (resample (pulseTable q) clearOut).out := h
  rw [e] at p1 p0
  constructor
  · intro hm
    by_contra hn
    have a := p1 hm
    have b := q0 hn
    omega
  · intro hm
    by_contra hn
    have a := p0 hn
    have b := q1 hm
    omega

/-- If two tables agree up to a pulse that is a 0 bit in one and a 1 bit in the other, the
sample at which the pulse after the 0 bit starts lies in a mark of the first table and in a
space of the second. -/
theorem first_diff (xs rs bs : List Pulse) (a b n : Pulse)
    (ha : a.onLen = 488 ∧ a.offLen = 464) (hb : b.onLen = 488 ∧ b.offLen = 1392)
    (hn : n.onLen = 488) :
    InMark (xs ++ a :: n :: rs) ((totalDuration xs + 952) / 100) ∧
    ¬ InMark (xs ++ b :: bs) ((totalDuration xs + 952) / 100) ∧
    (totalDuration xs + 952) / 100 < totalDuration (xs ++ a :: n :: rs) / 100 := by
  have ga : (xs ++ a :: n :: rs)[xs.length + 1]? = some n := by
    rw [List.getElem?_append_right (by omega)]
    simp
  have sa : startTime (xs ++ a :: n :: rs) (xs.length + 1) = totalDuration xs + 952 := by
    rw [startTime_append_right]
    simp [startTime, totalDuration, Pulse.duration, ha.1, ha.2]
  have gb : (xs ++ b :: bs)[xs.length]? = some b := by
    rw [List.getElem?_append_right (Nat.le_refl _)]
    simp
  have sb0 : startTime (xs ++ b :: bs) xs.length = totalDuration xs := by
    simp [startTime, totalDuration]
  have sb1 := startTime_succ _ _ _ gb
  rw [sb0] at sb1
  unfold Pulse.duration at sb1
  have hin : InMark (xs ++ a :: n :: rs) ((totalDuration xs + 952) / 100) := by
    refine ⟨xs.length + 1, n, ga, ?_, ?_⟩
    · rw [sa]
    · rw [sa, hn]
      omega
  refine ⟨hin, ?_, inMark_lt _ _ hin⟩
  refine not_inMark_space _ xs.length b _ gb ?_ ?_
  · rw [sb0, hb.1]
    omega
  · rw [sb1, hb.1, hb.2]
    omega

/-- What follows a data pulse in the table is a pulse with a mark of 488 microseconds. -/
theorem next_pulse (rest : List Pulse) (tr : Pulse) (htr : tr.onLen = 488)
    (hr : ∀ x ∈ rest, IsDataPulse x) :
    ∃ n rs, rest ++ [tr] = n :: rs ∧ n.onLen = 488 := by
  cases rest with
  | nil => exact ⟨tr, [], rfl, htr⟩
  | cons x xs => exact ⟨x, xs ++ [tr], rfl, (hr x (List.mem_cons_self _ _)).1⟩

/-- Two tables with the same start and the same trailer whose data pulses give the same marks
on a timeline that fits the buffer have the same data pulses. -/
theorem dataPulses_eq_of_inMark_iff (tr : Pulse) (htr : tr.onLen = 488) (as : List Pulse) :
    ∀ (bs xs : List Pulse), as.length = bs.length →
      (∀ x ∈ as, IsDataPulse x) → (∀ x ∈ bs, IsDataPulse x) →
      totalDuration (xs ++ (as ++ [tr])) / 100 ≤ MAX_ENCDATA_LENGTH →
      totalDuration (xs ++ (bs ++ [tr])) / 100 ≤ MAX_ENCDATA_LENGTH →
      (∀ k, k < MAX_ENCDATA_LENGTH →
        (InMark (xs ++ (as ++ [tr])) k ↔ InMark (xs ++ (bs ++ [tr])) k)) →
      as = bs := by
  induction as with
  | nil =>
    intro bs xs hl _ _ _ _ _
    cases bs with
    | nil => rfl
    | cons b bs => simp at hl
  | cons a as ih =>
    intro bs xs hl ha hb fa fb hiff
    cases bs with
    | nil => simp at hl
    | cons b bs =>
      have ha0 := ha a (List.mem_cons_self _ _)
      have hb0 := hb b (List.mem_cons_self _ _)
      have ha' : ∀ x ∈ as, IsDataPulse x := fun x hx => ha x (List.mem_cons_of_mem _ hx)
      have hb' : ∀ x ∈ bs, IsDataPulse x := fun x hx => hb x (List.mem_cons_of_mem _ hx)
      have hab : a = b := by
        obtain ⟨na, ra, ea, hna⟩ := next_pulse as tr htr ha'
        obtain ⟨nb, rb, eb, hnb⟩ := next_pulse bs tr htr hb'
        rcases ha0 with ⟨a1, a2 | a2⟩ <;> rcases hb0 with ⟨b1, b2 | b2⟩
        · cases a
          cases b
          simp only at a1 a2 b1 b2
          subst a1 a2 b1 b2
          rfl
        · exfalso
          have h := first_diff xs ra (bs ++ [tr]) a b na ⟨a1, a2⟩ ⟨b1, b2⟩ hna
          rw [← ea] at h
          have hk : (totalDuration xs + 952) / 100 < MAX_ENCDATA_LENGTH := by
            have := h.2.2
            simp only [List.cons_append] at fa
            omega
          exact h.2.1 ((hiff _ hk).1 h.1)
        · exfalso
          have h := first_diff xs rb (as ++ [tr]) b a nb ⟨b1, b2⟩ ⟨a1, a2⟩ hnb
          rw [← eb] at h
          have hk : (totalDuration xs + 952) / 100 < MAX_ENCDATA_LENGTH := by
            have := h.2.2
            simp only [List.cons_append] at fb
            omega
          exact h.2.1 ((hiff _ hk).2 h.1)
        · cases a
          cases b
          simp only at a1 a2 b1 b2
          subst a1 a2 b1 b2
          rfl
      subst hab
      have e1 : ∀ cs : List Pulse, xs ++ (a :: cs ++ [tr]) = (xs ++ [a]) ++ (cs ++ [tr]) := by
        intro cs
        simp
      rw [e1] at fa fb
      have hiff2 : ∀ k, k < MAX_ENCDATA_LENGTH →
          (InMark ((xs ++ [a]) ++ (as ++ [tr])) k ↔ InMark ((xs ++ [a]) ++ (bs ++ [tr])) k) := by
        intro k hk
        have := hiff k hk
        rwa [e1, e1] at this
      rw [ih bs (xs ++ [a]) (by simpa using hl) ha' hb' fa fb hiff2]

/-- The pulse of a bit determines the bit. -/
theorem bitPulse_inj (d e j : Nat) (h : bitPulse d j = bitPulse e j) :
    d / 2 ^ j % 2 = e / 2 ^ j % 2 := by
  have h2 := congrArg Pulse.offLen h
  simp only [bitPulse, dataBit_eq, T_OFF] at h2
  have hd : d / 2 ^ j % 2 < 2 := Nat.mod_lt _ (by decide)
  have he : e / 2 ^ j % 2 < 2 := Nat.mod_lt _ (by decide)
  generalize d / 2 ^ j % 2 = x at h2 hd
  generalize e / 2 ^ j % 2 = y at h2 he
  split_ifs at h2 <;> omega

/-- The eight pulses of a byte determine the byte. -/
theorem bytePulses_inj (d e : Nat) (hd : d < 256) (he : e < 256)
    (h : bytePulses d = bytePulses e) : d = e := by
  have hb : ∀ j, j < 8 → bitPulse d j = bitPulse e j := by
    intro j hj
    have h1 : (bytePulses d)[j]? = (bytePulses e)[j]? := by rw [h]
    simpa [bytePulses, List.getElem?_range hj] using h1
  have b0 := bitPulse_inj d e 0 (hb 0 (by decide))
  have b1 := bitPulse_inj d e 1 (hb 1 (by decide))
  have b2 := bitPulse_inj d e 2 (hb 2 (by decide))
  have b3 := bitPulse_inj d e 3 (hb 3 (by decide))
  have b4 := bitPulse_inj d e 4 (hb 4 (by decide))
  have b5 := bitPulse_inj d e 5 (hb 5 (by decide))
  have b6 := bitPulse_inj d e 6 (hb 6 (by decide))
  have b7 := bitPulse_inj d e 7 (hb 7 (by decide))
  simp only [Nat.reducePow] at b0 b1 b2 b3 b4 b5 b6 b7
  omega

/-- The data pulses determine the bytes. -/
theorem flatMap_bytePulses_inj (p : List Nat) :
    ∀ q : List Nat, p.length = q.length → (∀ x ∈ p, x < 256) → (∀ x ∈ q, x < 256) →
      p.flatMap bytePulses = q.flatMap bytePulses → p = q := by
  induction p with
  | nil =>
    intro q hl _ _ _
    cases q with
    | nil => rfl
    | cons e q => simp at hl
  | cons d p ih =>
    intro q hl hp hq h
    cases q with
    | nil => simp at hl
    | cons e q =>
      rw [List.flatMap_cons, List.flatMap_cons] at h
      have hlen : (bytePulses d).length = (bytePulses e).length := by simp [bytePulses]
      obtain ⟨h1, h2⟩ := List.append_inj h hlen
      have hde := bytePulses_inj d e (hp d (List.mem_cons_self _ _))
        (hq e (List.mem_cons_self _ _)) h1
      rw [hde, ih q (by simpa using hl) (fun x hx => hp x (List.mem_cons_of_mem _ hx))
        (fun x hx => hq x (List.mem_cons_of_mem _ hx)) h2]

/-- Every pulse of the data part is a data pulse. -/
theorem isDataPulse_flatMap (data : List Nat) :
    ∀ x ∈ data.flatMap bytePulses, IsDataPulse x := by
  intro x hx
  rw [List.mem_flatMap] at hx
  obtain ⟨d, -, hd⟩ := hx
  unfold bytePulses at hd
  rw [List.mem_map] at hd
  obtain ⟨j, -, rfl⟩ := hd
  unfold IsDataPulse bitPulse T_ON T_OFF
  refine ⟨rfl, ?_⟩
  split_ifs
  · right
    rfl
  · left
    rfl

/-- C18: for any two 13-byte payloads (bytes below 256) whose pulse timelines both last at
most 192000 microseconds, if `encode_aeha` followed by the byte packing gives the same 240
output bytes for both, the payloads are equal. -/
theorem C18_injective (p q : List Nat) (hp : p.length = 13) (hq : q.length = 13)
    (hpb : ∀ x ∈ p, x < 256) (hqb : ∀ x ∈ q, x < 256)
    (hpf : totalDuration (pulseTable p) ≤ 192000)
    (hqf : totalDuration (pulseTable q) ≤ 192000)
    (h : encodePayload p = encodePayload q) : p = q := by
  have hlenp : (encode_aeha p clearOut).length = MAX_ENCDATA_LENGTH :=
    (resample_inv (pulseTable p) clearOut clearOut_length).2.2.1
  have hlenq : (encode_aeha q clearOut).length = MAX_ENCDATA_LENGTH :=
    (resample_inv (pulseTable q) clearOut clearOut_length).2.2.1
  have hs : encode_aeha p clearOut = encode_aeha q clearOut := by
    have h2 := congrArg unpackBytes h
    unfold encodePayload at h2
    rwa [unpackBytes_outBytes _ hlenp (encode_aeha_01 p),
      unpackBytes_outBytes _ hlenq (encode_aeha_01 q)] at h2
  have hiff := inMark_iff_of_samples_eq p q hs
  rw [pulseTable_eq] at hpf hqf
  simp only [pulseTable_eq] at hiff
  have hbits := dataPulses_eq_of_inMark_iff { onLen := T_ON, offLen := T_TRAIL } rfl
    (p.flatMap bytePulses) (q.flatMap bytePulses) [{ onLen := 8 * T_ON, offLen := 4 * T_OFF }]
    (by rw [length_flatMap_bytePulses, length_flatMap_bytePulses, hp, hq])
    (isDataPulse_flatMap p) (isDataPulse_flatMap q)
    (by simp only [List.singleton_append, MAX_ENCDATA_LENGTH]; omega)
    (by simp only [List.singleton_append, MAX_ENCDATA_LENGTH]; omega)
    (by simpa only [List.singleton_append] using hiff)
  exact flatMap_bytePulses_inj p q (by rw [hp, hq]) hpb hqb hbits

/-- Witness for C18: power on and power off at temperature 24, mode 0, volume 0, full power
`UNSET`, are two payloads that fit the buffer and differ, so their output bytes differ. -/
theorem C18_injective_witness :
    encodePayload (buildPayload 1 24 0 0 UNSET) ≠ encodePayload (buildPayload 0 24 0 0 UNSET) :=
  fun h =>
    have fit : ∀ p t m v f : Int, ValidParams p t m v f →
        totalDuration (pulseTable (buildPayload p t m v f)) ≤ 192000 := by
      intro p t m v f hv
      have h1 := totalDuration_pulseTable (buildPayload p t m v f)
      have h2 := totalDuration_closedPayload p t m v f
      rw [buildPayload_closed p t m v f hv] at h1 ⊢
      omega
    absurd
      (C18_injective (buildPayload 1 24 0 0 UNSET) (buildPayload 0 24 0 0 UNSET)
        (by decide) (by decide) (by decide) (by decide)
        (fit 1 24 0 0 UNSET (by decide)) (fit 0 24 0 0 UNSET (by decide)) h)
      (by decide)

/-! ## Samples per pulse -/

/-- The entry of the table that belongs to bit `j` of byte `i`. -/
theorem pulseTable_bit (data : List Nat) (i j : Nat) (hi : i < data.length) (hj : j < 8) :
    (pulseTable data)[1 + 8 * i + j]? = some (bitPulse (data.getD i 0) j) := by
  have e : 1 + 8 * i + j = (8 * i + j) + 1 := by omega
  rw [pulseTable_eq, e, List.getElem?_cons_succ,
    List.getElem?_append_left (by rw [length_flatMap_bytePulses]; omega),
    getElem?_flatMap_bytePulses data i j hi hj]

/-- Every entry of the table after the leader has a mark of 488 microseconds. -/
theorem pulseTable_onLen (data : List Nat) (i : Nat) (p : Pulse) (hi : 1 ≤ i)
    (hp : (pulseTable data)[i]? = some p) : p.onLen = 488 := by
  obtain ⟨k, rfl⟩ : ∃ k, i = k + 1 := ⟨i - 1, by omega⟩
  rw [pulseTable_eq, List.getElem?_cons_succ] at hp
  have hm := List.getElem?_mem hp
  rw [List.mem_append] at hm
  rcases hm with hm | hm
  · rw [List.mem_flatMap] at hm
    obtain ⟨d, -, hd⟩ := hm
    unfold bytePulses at hd
    rw [List.mem_map] at hd
    obtain ⟨j, -, rfl⟩ := hd
    rfl
  · rw [List.mem_singleton] at hm
    subst hm
    rfl

/-- No pulse starts after the end of the timeline. -/
theorem startTime_le_total (ps : List Pulse) (i : Nat) : startTime ps i ≤ totalDuration ps := by
  rcases Nat.lt_or_ge i ps.length with h | h
  · have := startTime_mono ps i ps.length (Nat.le_of_lt h)
    unfold startTime at this ⊢
    rwa [List.take_length] at this
  · unfold startTime
    rw [List.take_of_length_le h]

/-- C19: for every payload whose timeline fits the buffer (at most 192000 microseconds):
after every pulse `pos` equals `floor(cumulative microseconds / 100)`; the mark of every
data bit and of the trailer is 4 or 5 consecutive samples, all 1; the space of a 0 bit is 4
or 5 consecutive samples and the space of a 1 bit is 13 or 14 consecutive samples, all 0. -/
theorem C19_quantisation (data : List Nat)
    (hfit : totalDuration (pulseTable data) ≤ 192000) :
    (∀ n, (resample ((pulseTable data).take n) clearOut).pos
        = totalDuration ((pulseTable data).take n) / 100) ∧
    (∀ i p, 1 ≤ i → (pulseTable data)[i]? = some p →
      ((startTime (pulseTable data) i + p.onLen) / 100 - startTime (pulseTable data) i / 100 = 4
        ∨ (startTime (pulseTable data) i + p.onLen) / 100
            - startTime (pulseTable data) i / 100 = 5) ∧
      ∀ k, startTime (pulseTable data) i / 100 ≤ k →
        k < (startTime (pulseTable data) i + p.onLen) / 100 →
        (encode_aeha data clearOut).getD k 0 = 1) ∧
    (∀ i j, i < data.length → j < 8 →
      (data.getD i 0 / 2 ^ j % 2 = 0 →
        (startTime (pulseTable data) (1 + 8 * i + j + 1) / 100
            - (startTime (pulseTable data) (1 + 8 * i + j) + 488) / 100 = 4
          ∨ startTime (pulseTable data) (1 + 8 * i + j + 1) / 100
            - (startTime (pulseTable data) (1 + 8 * i + j) + 488) / 100 = 5)) ∧
      (data.getD i 0 / 2 ^ j % 2 = 1 →
        (startTime (pulseTable data) (1 + 8 * i + j + 1) / 100
            - (startTime (pulseTable data) (1 + 8 * i + j) + 488) / 100 = 13
          ∨ startTime (pulseTable data) (1 + 8 * i + j + 1) / 100
            - (startTime (pulseTable data) (1 + 8 * i + j) + 488) / 100 = 14)) ∧
      ∀ k, (startTime (pulseTable data) (1 + 8 * i + j) + 488) / 100 ≤ k →
        k < startTime (pulseTable data) (1 + 8 * i + j + 1) / 100 →
        (encode_aeha data clearOut).getD k 0 = 0) := by
  refine ⟨?_, ?_, ?_⟩
  · intro n
    rw [(resample_inv _ clearOut clearOut_length).2.1]
    have := startTime_le_total (pulseTable data) n
    unfold startTime at this
    unfold MAX_ENCDATA_LENGTH
    omega
  · intro i p hi hp
    have hon := pulseTable_onLen data i p hi hp
    have hle := startTime_add_le _ i p hp
    unfold Pulse.duration at hle
    refine ⟨by omega, fun k hk1 hk2 => ?_⟩
    exact (resample_samples (pulseTable data) k (by unfold MAX_ENCDATA_LENGTH; omega)).1
      ⟨i, p, hp, hk1, hk2⟩
  · intro i j hi hj
    have hp := pulseTable_bit data i j hi hj
    have hs := startTime_succ _ _ _ hp
    have hle := startTime_le_total (pulseTable data) (1 + 8 * i + j + 1)
    have hon : (bitPulse (data.getD i 0) j).onLen = 488 := rfl
    have hd : (bitPulse (data.getD i 0) j).duration
        = 488 + if data.getD i 0 / 2 ^ j % 2 = 1 then 1392 else 464 := by
      simp only [bitPulse, Pulse.duration, dataBit_eq, T_ON, T_OFF]
    rw [hd] at hs
    refine ⟨fun h0 => ?_, fun h1 => ?_, fun k hk1 hk2 => ?_⟩
    · rw [if_neg (by omega)] at hs
      omega
    · rw [if_pos h1] at hs
      omega
    · refine (resample_samples (pulseTable data) k (by unfold MAX_ENCDATA_LENGTH; omega)).2
        (not_inMark_space _ _ _ k hp ?_ hk2)
      rw [hon]
      exact hk1

/-- Witness for C19 on the payload of power 1, temperature 24, mode 0, volume 0 with full
power `UNSET`, whose timeline lasts 139240 microseconds. -/
theorem C19_quantisation_witness :
    totalDuration (pulseTable (buildPayload 1 24 0 0 UNSET)) ≤ 192000 ∧
    (resample ((pulseTable (buildPayload 1 24 0 0 UNSET)).take 1) clearOut).pos
      = totalDuration ((pulseTable (buildPayload 1 24 0 0 UNSET)).take 1) / 100 :=
  have hfit : totalDuration (pulseTable (buildPayload 1 24 0 0 UNSET)) ≤ 192000 := by
    have h1 := totalDuration_pulseTable (buildPayload 1 24 0 0 UNSET)
    have h2 := totalDuration_closedPayload 1 24 0 0 UNSET
    rw [buildPayload_closed 1 24 0 0 UNSET (by decide)] at h1 ⊢
    omega
  ⟨hfit, (C19_quantisation (buildPayload 1 24 0 0 UNSET) hfit).1 1⟩

/-! ## The leader -/

/-- The table starts with the leader. -/
theorem pulseTable_head (data : List Nat) :
    (pulseTable data)[0]? = some { onLen := 3904, offLen := 1856 } := by
  rw [pulseTable_eq]
  simp [T_ON, T_OFF]

/-- C20: for every payload the samples 0..38 are 1 and the samples 39..56 are 0, and the
first seven output bytes are ff ff ff ff 7f 00 00. -/
theorem C20_leader (data : List Nat) :
    (∀ j, j ≤ 38 → (encode_aeha data clearOut).getD j 0 = 1) ∧
    (∀ j, 39 ≤ j → j ≤ 56 → (encode_aeha data clearOut).getD j 0 = 0) ∧
    (encodePayload data).take 7 = [0xff, 0xff, 0xff, 0xff, 0x7f, 0x00, 0x00] := by
  have hh := pulseTable_head data
  have hs0 : startTime (pulseTable data) 0 = 0 := rfl
  have hs1 := startTime_succ (pulseTable data) 0 _ hh
  rw [hs0] at hs1
  simp only [Pulse.duration] at hs1
  have h1 : ∀ j, j ≤ 38 → (encode_aeha data clearOut).getD j 0 = 1 := by
    intro j hj
    refine (resample_samples (pulseTable data) j (by unfold MAX_ENCDATA_LENGTH; omega)).1
      ⟨0, _, hh, ?_, ?_⟩
    · rw [hs0]
      omega
    · rw [hs0]
      dsimp only
      omega
  have h0 : ∀ j, 39 ≤ j → j ≤ 56 → (encode_aeha data clearOut).getD j 0 = 0 := by
    intro j hj1 hj2
    refine (resample_samples (pulseTable data) j (by unfold MAX_ENCDATA_LENGTH; omega)).2
      (not_inMark_space _ 0 _ j hh ?_ ?_)
    · rw [hs0]
      dsimp only
      omega
    · rw [hs1]
      omega
  refine ⟨h1, h0, ?_⟩
  have e7 : List.take 7 (List.range MAX_ENCBYTE_LENGTH) = [0, 1, 2, 3, 4, 5, 6] := by decide
  unfold encodePayload outBytes
  rw [← List.map_take, e7]
  simp only [List.map_cons, List.map_nil, packByte]
  rw [h1 (0 * 8 + 0) (by omega), h1 (0 * 8 + 1) (by omega), h1 (0 * 8 + 2) (by omega),
    h1 (0 * 8 + 3) (by omega), h1 (0 * 8 + 4) (by omega), h1 (0 * 8 + 5) (by omega),
    h1 (0 * 8 + 6) (by omega), h1 (0 * 8 + 7) (by omega),
    h1 (1 * 8 + 0) (by omega), h1 (1 * 8 + 1) (by omega), h1 (1 * 8 + 2) (by omega),
    h1 (1 * 8 + 3) (by omega), h1 (1 * 8 + 4) (by omega), h1 (1 * 8 + 5) (by omega),
    h1 (1 * 8 + 6) (by omega), h1 (1 * 8 + 7) (by omega),
    h1 (2 * 8 + 0) (by omega), h1 (2 * 8 + 1) (by omega), h1 (2 * 8 + 2) (by omega),
    h1 (2 * 8 + 3) (by omega), h1 (2 * 8 + 4) (by omega), h1 (2 * 8 + 5) (by omega),
    h1 (2 * 8 + 6) (by omega), h1 (2 * 8 + 7) (by omega),
    h1 (3 * 8 + 0) (by omega), h1 (3 * 8 + 1) (by omega), h1 (3 * 8 + 2) (by omega),
    h1 (3 * 8 + 3) (by omega), h1 (3 * 8 + 4) (by omega), h1 (3 * 8 + 5) (by omega),
    h1 (3 * 8 + 6) (by omega), h1 (3 * 8 + 7) (by omega),
    h1 (4 * 8 + 0) (by omega), h1 (4 * 8 + 1) (by omega), h1 (4 * 8 + 2) (by omega),
    h1 (4 * 8 + 3) (by omega), h1 (4 * 8 + 4) (by omega), h1 (4 * 8 + 5) (by omega),
    h1 (4 * 8 + 6) (by omega), h0 (4 * 8 + 7) (by omega) (by omega),
    h0 (5 * 8 + 0) (by omega) (by omega), h0 (5 * 8 + 1) (by omega) (by omega),
    h0 (5 * 8 + 2) (by omega) (by omega), h0 (5 * 8 + 3) (by omega) (by omega),
    h0 (5 * 8 + 4) (by omega) (by omega), h0 (5 * 8 + 5) (by omega) (by omega),
    h0 (5 * 8 + 6) (by omega) (by omega), h0 (5 * 8 + 7) (by omega) (by omega),
    h0 (6 * 8 + 0) (by omega) (by omega), h0 (6 * 8 + 1) (by omega) (by omega),
    h0 (6 * 8 + 2) (by omega) (by omega), h0 (6 * 8 + 3) (by omega) (by omega),
    h0 (6 * 8 + 4) (by omega) (by omega), h0 (6 * 8 + 5) (by omega) (by omega),
    h0 (6 * 8 + 6) (by omega) (by omega), h0 (6 * 8 + 7) (by omega) (by omega)]

/-- Witness for C20 on the payload of power 1, temperature 24, mode 0, volume 0 with full
power `UNSET`. -/
theorem C20_leader_witness :
    (encode_aeha (buildPayload 1 24 0 0 UNSET) clearOut).getD 38 0 = 1 ∧
    (encodePayload (buildPayload 1 24 0 0 UNSET)).take 7
      = [0xff, 0xff, 0xff, 0xff, 0x7f, 0x00, 0x00] :=
  have h := C20_leader (buildPayload 1 24 0 0 UNSET)
  ⟨h.1 38 (by decide), h.2.2⟩

end IRGen
